import Mathlib

/-!
# DCMotor: ramping controller for a DC motor driven by two PWM lines

A shallow embedding of `DCMotor.cpp` / `DCMotor.h`.

Conventions of the embedding.

* `int` members and parameters are `Int` (no operation of the class comes
  near the limits of a 16-bit `int` on a well-behaved run; signed overflow is
  undefined behaviour in C++ and is not modelled).
* `unsigned long` members are `Nat`; the one addition on them,
  `now + rampPeriod`, is taken modulo `2 ^ 32`, and a clock reading is
  truncated to 32 bits by `micros`.
* The hardware is part of the state: `out1` / `out2` hold the last duty value
  written to the lines `pwmPin1` / `pwmPin2` (two distinct lines), and `log`
  records every write in order, oldest first.
* What the code reads from the hardware is passed in: a `Sample` is what one
  call of `Run` reads (the clock and the two limit switches), and a call of
  `micros ()` elsewhere takes its reading as an argument.
* `while (state != STOPPED) Run ();` consumes one `Sample` per iteration from
  a list; a list that runs out while the motor is still not `STOPPED` gives
  `none` (the loop has not returned within these readings).
* A packet is a `String` whose characters stand for the bytes of the C
  string; `ExecuteCommand` returns the reply, the content of the buffer
  `ecReturnString` at the return, next to the controller.
-/

namespace DCMotor

/-! ## Data model (`DCMotor.h`) -/

/-- The enum `MotorState`. -/
inductive MotorState where
  | STOPPED
  | RAMPING_UP
  | AT_SPEED
  | RAMPING_DOWN
  deriving DecidableEq, Repr

/-- The enum `Direction`. -/
inductive Direction where
  | CW
  | CCW
  deriving DecidableEq, Repr

/-- The enum `RunReturn`. -/
inductive RunReturn where
  | OKAY
  | RUN_COMPLETE
  | RANGE_ERROR_LOWER
  | RANGE_ERROR_UPPER
  | LIMIT_SWITCH_LOWER
  | LIMIT_SWITCH_UPPER
  deriving DecidableEq, Repr

/-- One of the two output lines of the driver. -/
inductive Line where
  | pin1
  | pin2
  deriving DecidableEq, Repr

export MotorState (STOPPED RAMPING_UP AT_SPEED RAMPING_DOWN)
export Direction (CW CCW)
export RunReturn (OKAY RUN_COMPLETE RANGE_ERROR_LOWER RANGE_ERROR_UPPER
  LIMIT_SWITCH_LOWER LIMIT_SWITCH_UPPER)

/-- What one call of `Run` reads from the hardware: the microsecond clock and
the two limit switch inputs (`true` means the input reads `LOW`). -/
structure Sample where
  clock : Nat
  llLow : Bool
  ulLow : Bool
  deriving DecidableEq, Repr

/-- The members of `class DCMotor`, followed by the hardware outputs. -/
structure Motor where
  pwmPin1 : Int
  pwmPin2 : Int
  llSwitchPin : Int
  ulSwitchPin : Int
  state : MotorState
  currentDirection : Direction
  currentPWM : Int
  targetPWM : Int
  pwmIncrement : Int
  rampPeriod : Nat
  nextPWMMicros : Nat
  now : Nat
  out1 : Int
  out2 : Int
  log : List (Line × Int)
  deriving DecidableEq, Repr

/-- Number of values of an `unsigned long` (32 bits). -/
def ULONG : Nat := 4294967296

/-- The function `micros ()`: the clock reading, truncated to 32 bits. -/
def micros (reading : Nat) : Nat := reading % ULONG

/-- The call `analogWrite (pin, value)` on one of the two lines. -/
def analogWrite (m : Motor) (l : Line) (value : Int) : Motor :=
  match l with
  | Line.pin1 => { m with out1 := value, log := m.log ++ [(Line.pin1, value)] }
  | Line.pin2 => { m with out2 := value, log := m.log ++ [(Line.pin2, value)] }

/-- The call `digitalWrite (pin, LOW)` on one of the two lines: duty 0. -/
def digitalWriteLow (m : Motor) (l : Line) : Motor :=
  analogWrite m l 0

/-- The line that carries the pulse width for a direction: `pwmPin2` for
`CW`, `pwmPin1` for `CCW` (the branches of `Run`). -/
def activeLine (d : Direction) : Line :=
  match d with
  | CW => Line.pin2
  | CCW => Line.pin1

/-- The other line, driven low by `Go`. -/
def inactiveLine (d : Direction) : Line :=
  match d with
  | CW => Line.pin1
  | CCW => Line.pin2

/-- Last value written to a line. -/
def duty (m : Motor) (l : Line) : Int :=
  match l with
  | Line.pin1 => m.out1
  | Line.pin2 => m.out2

/-! ## Operations (`DCMotor.cpp`) -/

/-- The method `SetRamp`. -/
def SetRamp (m : Motor) (ramp : Int) : Motor :=
  if ramp ≥ 0 ∧ ramp ≤ 9 then
    { m with rampPeriod := (2000 * ramp + 2000).toNat }
  else m

/-- The constructor. `nextPWMMicros` and `now` have no initialiser in the
class, so their first values are arguments. -/
def new (PWMPin1 PWMPin2 LLSwitchPin ULSwitchPin : Int)
    (nextPWMMicros0 now0 : Nat) : Motor :=
  let m : Motor :=
    { pwmPin1 := PWMPin1, pwmPin2 := PWMPin2,
      llSwitchPin := LLSwitchPin, ulSwitchPin := ULSwitchPin,
      state := STOPPED, currentDirection := CW,
      currentPWM := 0, targetPWM := 0, pwmIncrement := 1,
      rampPeriod := 10000,
      nextPWMMicros := nextPWMMicros0 % ULONG, now := now0 % ULONG,
      out1 := 0, out2 := 0, log := [] }
  let m := analogWrite m Line.pin1 0
  let m := analogWrite m Line.pin2 0
  let m := { m with state := STOPPED }
  SetRamp m 4

/-- The method `EStop`. -/
def EStop (m : Motor) : Motor :=
  let m := analogWrite m Line.pin1 0
  let m := analogWrite m Line.pin2 0
  { m with state := STOPPED }

/-- The method `GetState`. -/
def GetState (m : Motor) : MotorState := m.state

/-- The method `Run`, on one reading of the hardware. -/
def Run (m : Motor) (s : Sample) : RunReturn × Motor :=
  if m.state ≠ STOPPED then
    if m.llSwitchPin ≠ 0 ∧ s.llLow = true then
      (LIMIT_SWITCH_LOWER, EStop m)
    else if m.ulSwitchPin ≠ 0 ∧ s.ulLow = true then
      (LIMIT_SWITCH_UPPER, EStop m)
    else if m.state ≠ AT_SPEED then
      let m := { m with now := micros s.clock }
      if m.now ≥ m.nextPWMMicros then
        let m := { m with currentPWM := m.currentPWM + m.pwmIncrement }
        let m := analogWrite m (activeLine m.currentDirection) m.currentPWM
        if m.currentPWM = m.targetPWM then
          if m.targetPWM = 0 then
            (OKAY, { m with state := STOPPED })
          else
            (OKAY, { m with state := AT_SPEED })
        else
          (OKAY, { m with nextPWMMicros := (m.now + m.rampPeriod) % ULONG })
      else (OKAY, m)
    else (OKAY, m)
  else (OKAY, m)

/-- The method `Stop`; `t` is what `micros ()` reads. -/
def Stop (m : Motor) (t : Nat) : Motor :=
  if m.state ≠ STOPPED ∧ m.currentPWM ≠ 0 then
    { m with targetPWM := 0, pwmIncrement := -1,
             nextPWMMicros := micros t, state := RAMPING_DOWN }
  else m

/-- The check of the speed parameter at the head of `Go`. -/
def clampSpeed (speed : Int) : Int :=
  if speed > 100 then 100 else if speed < 0 then 0 else speed

/-- The loop `while (state != STOPPED) Run ();` for as long as readings are
supplied: the state when the loop exits, or when the readings run out. -/
def drain (m : Motor) : List Sample → Motor
  | [] => m
  | s :: ss => if m.state ≠ STOPPED then drain (Run m s).2 ss else m

/-- The loop `while (state != STOPPED) Run ();`: the state at its exit, or
`none` when the readings run out before the motor is `STOPPED`. -/
def waitStopped (m : Motor) (ss : List Sample) : Option Motor :=
  let m := drain m ss
  if m.state ≠ STOPPED then none else some m

/-- The tail of `Go` (`if (speed != 0) ...`), on the clamped speed; `t` is
what `micros ()` reads. -/
def beginMotion (m : Motor) (dir : Direction) (speed : Int) (t : Nat) : Motor :=
  if speed ≠ 0 then
    let m := { m with currentDirection := dir }
    let m := digitalWriteLow m (inactiveLine m.currentDirection)
    { m with currentPWM := 0, targetPWM := speed * 250 / 100, pwmIncrement := 1,
             nextPWMMicros := micros t, state := RAMPING_UP }
  else m

/-- The method `Go`. `tStop` is the clock read by `Stop ()` on a reversal,
`ss` the readings of the successive `Run ()` calls of the reversal loop and
`tGo` the clock read when the new motion begins. The division is on
non-negative operands, where it agrees with the truncating `/` of C++. -/
def Go (m : Motor) (dir : Direction) (speed : Int)
    (tStop : Nat) (ss : List Sample) (tGo : Nat) : Option Motor :=
  let speed := clampSpeed speed
  if m.state ≠ STOPPED then
    if dir = m.currentDirection then
      let m := { m with targetPWM := speed * 250 / 100 }
      if m.targetPWM > m.currentPWM then
        some { m with pwmIncrement := 1, state := RAMPING_UP }
      else if m.targetPWM < m.currentPWM then
        some { m with pwmIncrement := -1, state := RAMPING_DOWN }
      else some m
    else
      match waitStopped (Stop m tStop) ss with
      | none => none
      | some m => some (beginMotion m dir speed tGo)
  else some (beginMotion m dir speed tGo)

/-! ## The command protocol (`ExecuteCommand`) -/

/-- The C library function `strlen`: the characters before the first NUL. -/
def strlen (p : List Char) : Nat :=
  (p.takeWhile (fun c => c ≠ Char.ofNat 0)).length

/-- The C library predicate `isspace` (space, and the controls 9 to 13). -/
def isspace (c : Char) : Bool :=
  c.toNat = 32 ∨ (9 ≤ c.toNat ∧ c.toNat ≤ 13)

/-- The value of the leading decimal digits of a text, after `acc`. -/
def digitsValue : Int → List Char → Int
  | acc, [] => acc
  | acc, c :: cs =>
    if c.isDigit then digitsValue (acc * 10 + ((c.toNat : Int) - 48)) cs else acc

/-- The C library function `atoi`: leading white space, an optional sign,
then decimal digits up to the first other character (overflow is not
modelled). -/
def atoi (p : List Char) : Int :=
  match p.dropWhile isspace with
  | [] => 0
  | c :: cs =>
    if c = '-' then - digitsValue 0 cs
    else if c = '+' then digitsValue 0 cs
    else digitsValue 0 (c :: cs)

/-- The reply of the `GS` command for a state (the `switch` of
`ExecuteCommand`; its `default` branch has no state left to serve). -/
def stateCode (st : MotorState) : String :=
  match st with
  | STOPPED => "ST"
  | RAMPING_UP => "RU"
  | RAMPING_DOWN => "RD"
  | AT_SPEED => "AS"

/-- The method `ExecuteCommand`: the reply (the content of `ecReturnString`
at the return) and the controller after the command. The hardware readings
are those of `Go`; `Stop ()` of the `ST` command reads `tStop`. -/
def ExecuteCommand (m : Motor) (packet : String)
    (tStop : Nat) (ss : List Sample) (tGo : Nat) : Option (String × Motor) :=
  let p := packet.data
  if strlen p < 2 then some ("Bad command", m)
  else
    let command := p.take 2
    if command = ['E', 'S'] then some ("", EStop m)
    else if command = ['S', 'R'] then
      if strlen p ≠ 3 then some ("Missing ramp value 0-9", m)
      else
        let ramp := atoi (p.drop 2)
        if ramp ≥ 0 ∧ ramp ≤ 9 then some ("", SetRamp m ramp) else some ("", m)
    else if command = ['G', 'O'] then
      if strlen p < 4 then some ("Bad command", m)
      else
        let dir := if p.get? 2 = some '<' then CCW else CW
        let speed := atoi (p.drop 3)
        match Go m dir speed tStop ss tGo with
        | none => none
        | some m => some ("", m)
    else if command = ['S', 'T'] then some ("", Stop m tStop)
    else if command = ['G', 'S'] then some (stateCode m.state, m)
    else some ("Unknown command", m)

/-- The character of the decimal digit `k` (`'0'` is 48). -/
def digitChar (k : Nat) : Char := Char.ofNat (48 + k)

/-! ## Runs of the polling loop -/

/-- The controller after successive calls of `Run`, one per reading. -/
def runs (m : Motor) : List Sample → Motor
  | [] => m
  | s :: ss => runs (Run m s).2 ss

/-- No configured limit switch reads `LOW` in the sample. -/
def NoLimit (m : Motor) (s : Sample) : Prop :=
  ¬ (m.llSwitchPin ≠ 0 ∧ s.llLow = true) ∧ ¬ (m.ulSwitchPin ≠ 0 ∧ s.ulLow = true)

instance (m : Motor) (s : Sample) : Decidable (NoLimit m s) := by
  unfold NoLimit; infer_instance

/-- The number of due calls of `Run` along the readings: the calls made on a
ramping controller (neither `STOPPED` nor `AT_SPEED`) at a clock reading at or
past `nextPWMMicros`. -/
def dueRuns : Motor → List Sample → Nat
  | _, [] => 0
  | m, s :: ss =>
    (if m.state ≠ STOPPED ∧ m.state ≠ AT_SPEED ∧ m.nextPWMMicros ≤ micros s.clock
      then 1 else 0) + dueRuns (Run m s).2 ss

/-- The writes of `n` successive ramp steps from level `c` by `inc` on line
`l`: the values `c + inc`, `c + 2 * inc`, ..., `c + n * inc`. -/
def rampWrites (l : Line) (c inc : Int) (n : Nat) : List (Line × Int) :=
  (List.range n).map (fun (i : Nat) => (l, c + inc * ((i : Int) + 1)))

/-! ## Sequences of calls -/

/-- One call of a public method, with the hardware readings it consumes. -/
inductive Call where
  | go (dir : Direction) (speed : Int) (tStop : Nat) (ss : List Sample) (tGo : Nat)
  | stop (t : Nat)
  | estop
  | setRamp (ramp : Int)
  | exec (packet : String) (tStop : Nat) (ss : List Sample) (tGo : Nat)
  | run (s : Sample)
  deriving DecidableEq, Repr

/-- The controller after a call; `none` when the call does not return within
its readings. -/
def perform (m : Motor) : Call → Option Motor
  | Call.go dir speed tStop ss tGo => Go m dir speed tStop ss tGo
  | Call.stop t => some (Stop m t)
  | Call.estop => some (EStop m)
  | Call.setRamp ramp => some (SetRamp m ramp)
  | Call.exec packet tStop ss tGo => (ExecuteCommand m packet tStop ss tGo).map Prod.snd
  | Call.run s => some (Run m s).2

/-- The controller after a sequence of calls. -/
def performAll (m : Motor) : List Call → Option Motor
  | [] => some m
  | c :: cs =>
    match perform m c with
    | none => none
    | some m1 => performAll m1 cs

/-- The states reachable from a freshly constructed controller by a finite
sequence of `Go`, `Stop`, `EStop`, `SetRamp`, `ExecuteCommand` and `Run`
calls, under any clock and sensor readings. -/
def Reachable (m : Motor) : Prop :=
  ∃ (p1 p2 ll ul : Int) (n0 now0 : Nat) (cs : List Call),
    performAll (new p1 p2 ll ul n0 now0) cs = some m

/-- A call that involves no emergency stop: not `EStop`, not the `ES` command,
and no limit switch triggered in any reading of a `Run`. -/
def Gentle (m : Motor) : Call → Prop
  | Call.go _ _ _ ss _ => ∀ s ∈ ss, NoLimit m s
  | Call.stop _ => True
  | Call.estop => False
  | Call.setRamp _ => True
  | Call.exec packet _ ss _ => packet.data.take 2 ≠ ['E', 'S'] ∧ ∀ s ∈ ss, NoLimit m s
  | Call.run s => NoLimit m s

instance (m : Motor) (c : Call) : Decidable (Gentle m c) := by
  cases c <;> unfold Gentle <;> infer_instance

/-- Every call of the sequence is `Gentle` in the state where it is made. -/
def AllGentle : Motor → List Call → Prop
  | _, [] => True
  | m, c :: cs =>
    Gentle m c ∧
      match perform m c with
      | none => True
      | some m1 => AllGentle m1 cs

instance instDecidableAllGentle :
    (m : Motor) → (cs : List Call) → Decidable (AllGentle m cs)
  | _, [] => isTrue trivial
  | m, c :: cs =>
    match h : perform m c with
    | none => by
      unfold AllGentle; rw [h]; infer_instance
    | some m1 => by
      have := instDecidableAllGentle m1 cs
      unfold AllGentle; rw [h]; infer_instance

/-! ## Predicates on states -/

/-- A `STOPPED` controller is at level 0. -/
def StoppedAtZero (m : Motor) : Prop :=
  m.state = STOPPED → m.currentPWM = 0

/-- A controller that can only climb: no limit switch is configured, the step
is `+1`, and the state is `RAMPING_UP` below a target or `AT_SPEED`. -/
def Climbing (m : Motor) : Prop :=
  m.llSwitchPin = 0 ∧ m.ulSwitchPin = 0 ∧ m.pwmIncrement = 1 ∧
  ((m.state = RAMPING_UP ∧ 0 ≤ m.currentPWM ∧ m.currentPWM < m.targetPWM) ∨
    m.state = AT_SPEED)

/-- An `AT_SPEED` controller stands on a target other than 0. -/
def AtSpeedOnTarget (m : Motor) : Prop :=
  m.state = AT_SPEED → m.currentPWM = m.targetPWM ∧ m.targetPWM ≠ 0

/-- The two lines do not overlap: while the motor is not `STOPPED` the line
not selected by `currentDirection` is at 0, and when it is `STOPPED` both
lines are at 0. -/
def LinesOk (m : Motor) : Prop :=
  (m.state ≠ STOPPED → duty m (inactiveLine m.currentDirection) = 0) ∧
  (m.state = STOPPED → m.out1 = 0 ∧ m.out2 = 0)

/-! ## States, readings and call sequences used as instances -/

/-- Readings for `n` calls of `Run`, `period` microseconds apart from clock 0,
with no limit switch triggered. -/
def spaced (period n : Nat) : List Sample :=
  (List.range n).map (fun (i : Nat) => { clock := period * i, llLow := false, ulLow := false })

/-- A freshly constructed controller on pins 5 and 6, without limit switches. -/
def fresh : Motor := new 5 6 0 0 0 0

/-- One reading at clock `t` with no limit switch triggered. -/
def quiet (t : Nat) : Sample := { clock := t, llLow := false, ulLow := false }

/-- A controller at speed: level 3 in direction `CW` (pins 5 and 6, no limit
switches). -/
def atSpeed3 : Motor :=
  { fresh with state := AT_SPEED, currentPWM := 3, targetPWM := 3, out2 := 3 }

/-- Calls that end below level 0: `Go (CW, 1)` (target 2), two calls of `Run`
(`AT_SPEED` at 2), `Stop ()`, `Go (CW, 1)` again, three calls of `Run`. -/
def dipCalls : List Call :=
  [Call.go CW 1 0 [] 0, Call.run (quiet 0), Call.run (quiet 10000), Call.stop 10000,
   Call.go CW 1 0 [] 0, Call.run (quiet 20000), Call.run (quiet 30000),
   Call.run (quiet 40000)]

/-- The state after `dipCalls` on a fresh controller. -/
def dipped : Motor := (performAll fresh dipCalls).getD fresh

/-- Calls that leave a ramp without an end: `Go (CW, 50)`, then `Go (CW, 0)`
at level 0. -/
def stallCalls : List Call := [Call.go CW 50 0 [] 0, Call.go CW 0 0 [] 0]

/-- The state after `stallCalls` on a fresh controller. -/
def stalled : Motor := (performAll fresh stallCalls).getD fresh

/-- Calls that end in an emergency stop on the way up: `Go (CW, 50)`, one call
of `Run` (level 1), `EStop ()`. -/
def haltCalls : List Call := [Call.go CW 50 0 [] 0, Call.run (quiet 0), Call.estop]

/-- The state after `haltCalls` on a fresh controller. -/
def halted : Motor := (performAll fresh haltCalls).getD fresh

/-- Calls that restart the motor after an emergency stop taken at level 1:
`Go (CW, 50)`, one call of `Run`, `EStop ()`, then `Go (CW, 1)`. -/
def restartCalls : List Call :=
  [Call.go CW 50 0 [] 0, Call.run (quiet 0), Call.estop, Call.go CW 1 0 [] 20000]

/-- The state after `restartCalls` on a fresh controller. -/
def restarted : Motor := (performAll fresh restartCalls).getD fresh

/-- Calls that take the restarted motor up to level 2 (two calls of `Run`) and
back down to a stop (the `ST` command and two more calls of `Run`). -/
def upDownCalls : List Call :=
  [Call.run (quiet 20000), Call.run (quiet 30000),
   Call.exec "ST" 40000 [] 0, Call.run (quiet 40000), Call.run (quiet 50000)]

/-- The state after `upDownCalls` on `restarted`. -/
def settled : Motor := (performAll restarted upDownCalls).getD fresh

/-- Calls that ramp up to level 2: `Go (CW, 1)` and two calls of `Run`. -/
def upCalls : List Call :=
  [Call.go CW 1 0 [] 0, Call.run (quiet 0), Call.run (quiet 10000)]

/-- The state after `upCalls` on a fresh controller. -/
def cruising : Motor := (performAll fresh upCalls).getD fresh

/-- A ramp whose first step is taken 5000 microseconds before the 32-bit clock
wraps: `Go (CW, 50)` on a fresh controller at clock `2 ^ 32 - 5000`, then one
call of `Run` at the same clock reading. -/
def steppedNearWrap : Motor :=
  (Run ((Go fresh CW 50 0 [] 4294962296).getD fresh) (quiet 4294962296)).2

/-- A ramp whose first step is taken 15000 microseconds before the 32-bit
clock wraps: `Go (CW, 50)` on a fresh controller at clock `2 ^ 32 - 15000`,
then one call of `Run` at the same clock reading. -/
def steppedBeforeWrap : Motor :=
  (Run ((Go fresh CW 50 0 [] 4294952296).getD fresh) (quiet 4294952296)).2

/-! ## One ramp step -/

/-- The effect of one due call of `Run` on a ramping controller. -/
theorem Run_ramp_step (m : Motor) (s : Sample)
    (h1 : m.state ≠ STOPPED) (h2 : m.state ≠ AT_SPEED) (hq : NoLimit m s)
    (hdue : m.nextPWMMicros ≤ micros s.clock) :
    (Run m s).1 = OKAY ∧
    (Run m s).2.currentPWM = m.currentPWM + m.pwmIncrement ∧
    (Run m s).2.log =
      m.log ++ [(activeLine m.currentDirection, m.currentPWM + m.pwmIncrement)] ∧
    duty (Run m s).2 (activeLine m.currentDirection) = m.currentPWM + m.pwmIncrement ∧
    duty (Run m s).2 (inactiveLine m.currentDirection) =
      duty m (inactiveLine m.currentDirection) ∧
    (Run m s).2.state =
      (if m.currentPWM + m.pwmIncrement = m.targetPWM then
        (if m.targetPWM = 0 then STOPPED else AT_SPEED) else m.state) ∧
    (Run m s).2.targetPWM = m.targetPWM ∧
    (Run m s).2.pwmIncrement = m.pwmIncrement ∧
    (Run m s).2.currentDirection = m.currentDirection ∧
    (Run m s).2.llSwitchPin = m.llSwitchPin ∧
    (Run m s).2.ulSwitchPin = m.ulSwitchPin ∧
    (Run m s).2.rampPeriod = m.rampPeriod := by
  obtain ⟨hl, hu⟩ := hq
  have hdue2 : micros s.clock ≥ m.nextPWMMicros := hdue
  unfold Run
  simp only [h1, h2, hl, hu, hdue2, ne_eq, not_false_eq_true, if_true, if_false]
  cases hdir : m.currentDirection <;>
    simp only [analogWrite, activeLine, inactiveLine, duty] <;>
    split_ifs <;> simp_all

/-- A call of `Run` on a ramping controller before `nextPWMMicros` only
records the clock reading. -/
theorem Run_not_due (m : Motor) (s : Sample)
    (h1 : m.state ≠ STOPPED) (h2 : m.state ≠ AT_SPEED) (hl : NoLimit m s)
    (hnd : micros s.clock < m.nextPWMMicros) :
    Run m s = (OKAY, { m with now := micros s.clock }) := by
  obtain ⟨hl1, hl2⟩ := hl
  have hnd2 : ¬ (micros s.clock ≥ m.nextPWMMicros) := by omega
  unfold Run
  simp only [h1, h2, hl1, hl2, hnd2, ne_eq, not_false_eq_true, if_true, if_false]

/-- A call of `Run` never changes the pins of the limit switches. -/
theorem Run_pins (m : Motor) (s : Sample) :
    (Run m s).2.llSwitchPin = m.llSwitchPin ∧ (Run m s).2.ulSwitchPin = m.ulSwitchPin := by
  unfold Run
  dsimp only
  split_ifs <;> cases m.currentDirection <;> simp [EStop, analogWrite, activeLine]

/-- A call of `Run` on a controller that is `STOPPED`, or `AT_SPEED` with no
limit switch triggered, changes nothing. -/
theorem Run_idle (m : Motor) (s : Sample)
    (h : m.state = STOPPED ∨ m.state = AT_SPEED) (hl : NoLimit m s) :
    Run m s = (OKAY, m) := by
  obtain ⟨a, b⟩ := hl
  rcases h with h | h <;> simp [Run, h, a, b]

/-- No limit switch is triggered in any of the readings. -/
theorem NoLimit_Run (m : Motor) (s : Sample) (ss : List Sample)
    (h : ∀ x ∈ s :: ss, NoLimit m x) :
    NoLimit m s ∧ ∀ x ∈ ss, NoLimit (Run m s).2 x := by
  refine ⟨h s (List.mem_cons_self s ss), fun x hx => ?_⟩
  have hx2 := h x (List.mem_cons_of_mem s hx)
  obtain ⟨p1, p2⟩ := Run_pins m s
  unfold NoLimit at hx2 ⊢
  rw [p1, p2]
  exact hx2

/-- Calls of `Run` on an idle controller change nothing, and none is due. -/
theorem runs_idle (ss : List Sample) : ∀ (m : Motor),
    (m.state = STOPPED ∨ m.state = AT_SPEED) → (∀ s ∈ ss, NoLimit m s) →
    runs m ss = m ∧ dueRuns m ss = 0 := by
  induction ss with
  | nil => intro m _ _; exact ⟨rfl, rfl⟩
  | cons s ss ih =>
    intro m h hl
    obtain ⟨hs, hrest⟩ := NoLimit_Run m s ss hl
    have hR := Run_idle m s h hs
    rw [hR] at hrest
    obtain ⟨i1, i2⟩ := ih m h hrest
    have hc : ¬ (m.state ≠ STOPPED ∧ m.state ≠ AT_SPEED ∧
        m.nextPWMMicros ≤ micros s.clock) := by
      rintro ⟨a, b, -⟩
      rcases h with h | h
      · exact a h
      · exact b h
    simp only [runs, dueRuns, hR, i1, i2, if_neg hc]
    exact ⟨trivial, trivial⟩

/-! ## A whole ramp -/

theorem rampWrites_succ (l : Line) (c inc : Int) (n : Nat) :
    rampWrites l c inc (n + 1) = (l, c + inc) :: rampWrites l (c + inc) inc n := by
  unfold rampWrites
  rw [List.range_succ_eq_map, List.map_cons, List.map_map]
  refine congrArg₂ _ (by simp) ?_
  apply List.map_congr_left
  intro i _
  simp only [Function.comp, Nat.succ_eq_add_one, Nat.cast_add, Nat.cast_one]
  ring_nf

/-- A ramping controller moves one unit toward its target at every due call
of `Run` and stays put at the others, until it stands on the target; no limit
switch is triggered along the readings. -/
theorem runs_ramp (ss : List Sample) : ∀ (m : Motor),
    m.state ≠ STOPPED → m.state ≠ AT_SPEED →
    (m.pwmIncrement = 1 ∨ m.pwmIncrement = -1) →
    0 < (m.targetPWM - m.currentPWM) * m.pwmIncrement →
    (∀ s ∈ ss, NoLimit m s) →
    (dueRuns m ss : Int) ≤ (m.targetPWM - m.currentPWM) * m.pwmIncrement ∧
    (runs m ss).currentPWM = m.currentPWM + m.pwmIncrement * dueRuns m ss ∧
    (runs m ss).log = m.log ++
      rampWrites (activeLine m.currentDirection) m.currentPWM m.pwmIncrement
        (dueRuns m ss) ∧
    duty (runs m ss) (activeLine m.currentDirection) =
      (if dueRuns m ss = 0 then duty m (activeLine m.currentDirection)
        else (runs m ss).currentPWM) ∧
    duty (runs m ss) (inactiveLine m.currentDirection) =
      duty m (inactiveLine m.currentDirection) ∧
    (runs m ss).state =
      (if (runs m ss).currentPWM = m.targetPWM then
        (if m.targetPWM = 0 then STOPPED else AT_SPEED) else m.state) ∧
    (runs m ss).targetPWM = m.targetPWM ∧
    (runs m ss).pwmIncrement = m.pwmIncrement ∧
    (runs m ss).currentDirection = m.currentDirection := by
  induction ss with
  | nil =>
    intro m _ _ _ hpos _
    have hne : m.currentPWM ≠ m.targetPWM := by
      intro h; rw [h] at hpos; simp at hpos
    simp only [runs, dueRuns, rampWrites, Nat.cast_zero, mul_zero, add_zero, List.range_zero,
      List.map_nil, List.append_nil, if_true, if_neg hne, true_and, and_true]
    exact le_of_lt hpos
  | cons s ss ih =>
    intro m h1 h2 hinc hpos hl
    obtain ⟨hs, hrest⟩ := NoLimit_Run m s ss hl
    have hne : m.currentPWM ≠ m.targetPWM := by
      intro h; rw [h] at hpos; simp at hpos
    by_cases hdue : m.nextPWMMicros ≤ micros s.clock
    · -- a due call: one step
      obtain ⟨-, hc, hlog, hact, hin, hst, htg, hi, hdir, -, -, -⟩ :=
        Run_ramp_step m s h1 h2 hs hdue
      have hcount : dueRuns m (s :: ss) = dueRuns (Run m s).2 ss + 1 := by
        simp only [dueRuns, h1, h2, hdue, ne_eq, not_false_eq_true, and_self, if_true]
        omega
      rw [hcount]
      simp only [runs, Nat.cast_add, Nat.cast_one, rampWrites_succ]
      by_cases hreach : m.currentPWM + m.pwmIncrement = m.targetPWM
      · -- the target is reached by this step: the controller is idle from here
        rw [if_pos hreach] at hst
        have hidle : (Run m s).2.state = STOPPED ∨ (Run m s).2.state = AT_SPEED := by
          rw [hst]; split_ifs
          · exact Or.inl rfl
          · exact Or.inr rfl
        obtain ⟨k1, k2⟩ := runs_idle ss (Run m s).2 hidle hrest
        simp only [k1, k2, Nat.cast_zero, zero_add, mul_one, rampWrites, List.range_zero,
          List.map_nil]
        refine ⟨?_, hc, ?_, ?_, hin, ?_, htg, hi, hdir⟩
        · rcases hinc with h | h <;> rw [h] at hreach ⊢ <;> omega
        · simpa using hlog
        · rw [if_neg (by omega), hact, hc]
        · rw [hst, if_pos (hc.trans hreach)]
      · rw [if_neg hreach] at hst
        have hpos1 : 0 < ((Run m s).2.targetPWM - (Run m s).2.currentPWM) *
            (Run m s).2.pwmIncrement := by
          rw [hc, htg, hi]
          rcases hinc with h | h <;> rw [h] at hpos hreach ⊢ <;> omega
        obtain ⟨jn, jc, jlog, jact, jin, jst, jtg, ji, jdir⟩ :=
          ih (Run m s).2 (by rw [hst]; exact h1) (by rw [hst]; exact h2)
            (by rw [hi]; exact hinc) hpos1 hrest
        rw [hdir] at jact jin jlog
        rw [htg] at jst jtg
        rw [hst] at jst
        rw [hc, htg, hi] at jn
        refine ⟨?_, ?_, ?_, ?_, ?_, jst, jtg, by rw [ji, hi], by rw [jdir, hdir]⟩
        · rcases hinc with h | h <;> rw [h] at jn ⊢ <;> omega
        · rw [jc, hc, hi]; ring
        · rw [jlog, hlog, hc, hi]; simp
        · rw [if_neg (by omega), jact]
          by_cases hz : dueRuns (Run m s).2 ss = 0
          · rw [if_pos hz, jc, hz, hact, hc]; simp
          · rw [if_neg hz]
        · rw [jin, hin]
    · -- a call before `nextPWMMicros`: only the clock reading is recorded
      have hR := Run_not_due m s h1 h2 hs (by omega)
      have hcount : dueRuns m (s :: ss) = dueRuns (Run m s).2 ss := by
        simp only [dueRuns, hdue, and_false, if_false, zero_add]
      have hm : (Run m s).2 = { m with now := micros s.clock } := by rw [hR]
      rw [hcount]
      simp only [runs, hm] at hrest ⊢
      exact ih { m with now := micros s.clock } h1 h2 hinc hpos hrest

/-! ## Ramp-up from a stop (C1) -/

/-- C1. From a `STOPPED` controller, `Go (d, s)` with `1 ≤ s ≤ 100` returns in
`RAMPING_UP` with `currentPWM = 0` and `targetPWM = s * 250 / 100`. From there,
along any calls of `Run` in which no limit switch is triggered, every due call
(clock at or past `nextPWMMicros`) raises `currentPWM` by one and writes it to
the line of `d`: after the calls, `currentPWM` is the number `n` of due calls,
the writes are exactly `1, 2, ..., n` on that line, `n` never exceeds the
target, and the state is `RAMPING_UP` while `n` is below the target and
`AT_SPEED` once `n` equals it. -/
theorem ramp_up_from_stopped (m : Motor) (d : Direction) (s : Int)
    (tStop : Nat) (rs : List Sample) (tGo : Nat)
    (hst : m.state = STOPPED) (h1 : 1 ≤ s) (h100 : s ≤ 100) :
    ∃ g, Go m d s tStop rs tGo = some g ∧
      g.state = RAMPING_UP ∧ g.currentPWM = 0 ∧ g.targetPWM = s * 250 / 100 ∧
      ∀ ss : List Sample, (∀ x ∈ ss, NoLimit g x) →
        (runs g ss).currentPWM = dueRuns g ss ∧
        (dueRuns g ss : Int) ≤ s * 250 / 100 ∧
        (runs g ss).log = g.log ++ rampWrites (activeLine d) 0 1 (dueRuns g ss) ∧
        (0 < dueRuns g ss → duty (runs g ss) (activeLine d) = dueRuns g ss) ∧
        (runs g ss).state =
          (if (dueRuns g ss : Int) = s * 250 / 100 then AT_SPEED else RAMPING_UP) := by
  have hs0 : s ≠ 0 := by omega
  have hclamp : clampSpeed s = s := by
    unfold clampSpeed
    rw [if_neg (by omega), if_neg (by omega)]
  have hT : 0 < s * 250 / 100 := by omega
  have hg1 : (beginMotion m d s tGo).state = RAMPING_UP := by simp [beginMotion, hs0]
  have hg2 : (beginMotion m d s tGo).currentPWM = 0 := by simp [beginMotion, hs0]
  have hg3 : (beginMotion m d s tGo).targetPWM = s * 250 / 100 := by
    simp [beginMotion, hs0]
  have hg4 : (beginMotion m d s tGo).pwmIncrement = 1 := by simp [beginMotion, hs0]
  have hg5 : (beginMotion m d s tGo).currentDirection = d := by
    simp [beginMotion, hs0, digitalWriteLow, analogWrite]
    cases d <;> simp [inactiveLine]
  refine ⟨beginMotion m d s tGo, by simp [Go, hst, hclamp], hg1, hg2, hg3, ?_⟩
  intro ss hquiet
  obtain ⟨jn, jc, jlog, jact, -, jst, -, -, -⟩ :=
    runs_ramp ss (beginMotion m d s tGo) (by rw [hg1]; decide) (by rw [hg1]; decide)
      (Or.inl hg4) (by rw [hg2, hg3, hg4]; omega) hquiet
  rw [hg2, hg3, hg4] at jn
  rw [hg2, hg4] at jc
  rw [hg5, hg2, hg4] at jlog
  rw [hg5] at jact
  rw [hg3, hg1] at jst
  have jc2 : (runs (beginMotion m d s tGo) ss).currentPWM = dueRuns (beginMotion m d s tGo) ss := by
    rw [jc]; ring
  refine ⟨jc2, by omega, jlog, fun h => ?_, ?_⟩
  · rw [jact, if_neg (by omega), jc2]
  · rw [jst, jc2, if_neg (by omega : ¬ s * 250 / 100 = 0)]

set_option maxRecDepth 1000000 in
/-- C1 on a fresh controller: `Go (CW, 60)` gives `targetPWM = 150`; the 150
calls of `spaced 10000 150` are all due, and after them the level is 150 and
the state `AT_SPEED`; after the first 149 the level is 149 and the state still
`RAMPING_UP`. -/
theorem ramp_up_from_stopped_witness :
    fresh.state = STOPPED ∧ (1 : Int) ≤ 60 ∧ (60 : Int) ≤ 100 ∧
    ∃ g, Go fresh CW 60 0 [] 0 = some g ∧ g.targetPWM = 150 ∧
      dueRuns g (spaced 10000 150) = 150 ∧
      (runs g (spaced 10000 150)).currentPWM = 150 ∧
      (runs g (spaced 10000 150)).state = AT_SPEED ∧
      dueRuns g (spaced 10000 149) = 149 ∧
      (runs g (spaced 10000 149)).currentPWM = 149 ∧
      (runs g (spaced 10000 149)).state = RAMPING_UP := by
  refine ⟨by decide, by decide, by decide, ?_⟩
  obtain ⟨g, hg, -, -, htg, hruns⟩ :=
    ramp_up_from_stopped fresh CW 60 0 [] 0 (by decide) (by decide) (by decide)
  have hg0 : g = beginMotion fresh CW 60 0 := by
    have : Go fresh CW 60 0 [] 0 = some (beginMotion fresh CW 60 0) := by decide
    rw [this] at hg
    exact (Option.some.inj hg).symm
  have hq : ∀ n, ∀ x ∈ spaced 10000 n, NoLimit g x := by
    intro n x hx
    simp only [spaced, List.mem_map] at hx
    obtain ⟨i, -, rfl⟩ := hx
    simp [NoLimit]
  have hn150 : dueRuns g (spaced 10000 150) = 150 := by rw [hg0]; decide
  have hn149 : dueRuns g (spaced 10000 149) = 149 := by rw [hg0]; decide
  have h150 := hruns (spaced 10000 150) (hq 150)
  have h149 := hruns (spaced 10000 149) (hq 149)
  rw [hn150] at h150
  rw [hn149] at h149
  refine ⟨g, hg, by rw [htg]; decide, hn150, ?_, ?_, hn149, ?_, ?_⟩
  · rw [h150.1]; rfl
  · rw [h150.2.2.2.2]; decide
  · rw [h149.1]; rfl
  · rw [h149.2.2.2.2]; decide

/-! ## Ramp-down to a stop (C2) -/

/-- C2. From `AT_SPEED` with `currentPWM = targetPWM = L`, `1 ≤ L ≤ 250`, in
either direction, `Stop ()` gives `RAMPING_DOWN` with `targetPWM = 0` and the
level untouched. From there, along any calls of `Run` in which no limit switch
is triggered, every due call lowers `currentPWM` by one and writes it to the
active line: after the calls, with `n` the number of due calls, `currentPWM`
is `L - n`, never negative, the writes are exactly `L - 1, ..., L - n` on that
line, and the state is `RAMPING_DOWN` while `n < L` and `STOPPED`, with level 0
and 0 on the active line, once `n = L`. -/
theorem ramp_down_from_at_speed (m : Motor) (L : Int) (t : Nat)
    (hst : m.state = AT_SPEED) (hc : m.currentPWM = L) (ht : m.targetPWM = L)
    (h1 : 1 ≤ L) (_h250 : L ≤ 250) :
    (Stop m t).state = RAMPING_DOWN ∧ (Stop m t).targetPWM = 0 ∧
    (Stop m t).currentPWM = L ∧
    ∀ ss : List Sample, (∀ x ∈ ss, NoLimit (Stop m t) x) →
      (runs (Stop m t) ss).currentPWM = L - dueRuns (Stop m t) ss ∧
      0 ≤ (runs (Stop m t) ss).currentPWM ∧
      (runs (Stop m t) ss).log = (Stop m t).log ++
        rampWrites (activeLine m.currentDirection) L (-1) (dueRuns (Stop m t) ss) ∧
      (0 < dueRuns (Stop m t) ss →
        duty (runs (Stop m t) ss) (activeLine m.currentDirection) =
          L - dueRuns (Stop m t) ss) ∧
      (runs (Stop m t) ss).state =
        (if (dueRuns (Stop m t) ss : Int) = L then STOPPED else RAMPING_DOWN) := by
  have hc0 : m.currentPWM ≠ 0 := by omega
  have hS : Stop m t =
      { m with targetPWM := 0, pwmIncrement := -1, nextPWMMicros := micros t,
               state := RAMPING_DOWN } := by
    simp [Stop, hst, hc0]
  have _ := ht
  have e1 : (Stop m t).currentPWM = L := by rw [hS]; exact hc
  have e2 : (Stop m t).pwmIncrement = -1 := by rw [hS]
  have e3 : (Stop m t).currentDirection = m.currentDirection := by rw [hS]
  have e4 : (Stop m t).targetPWM = 0 := by rw [hS]
  have e5 : (Stop m t).state = RAMPING_DOWN := by rw [hS]
  refine ⟨e5, e4, e1, ?_⟩
  intro ss hquiet
  obtain ⟨jn, jc, jlog, jact, -, jst, -, -, -⟩ :=
    runs_ramp ss (Stop m t) (by rw [e5]; decide) (by rw [e5]; decide)
      (Or.inr e2) (by rw [e1, e2, e4]; omega) hquiet
  rw [e1, e2, e4] at jn
  rw [e1, e2] at jc
  rw [e3, e1, e2] at jlog
  rw [e3] at jact
  rw [e4, e5] at jst
  have jc2 : (runs (Stop m t) ss).currentPWM = L - dueRuns (Stop m t) ss := by
    rw [jc]; ring
  refine ⟨jc2, by rw [jc2]; omega, jlog, fun h => ?_, ?_⟩
  · rw [jact, if_neg (by omega), jc2]
  · rw [jst, jc2]
    by_cases hL : (dueRuns (Stop m t) ss : Int) = L
    · rw [if_pos hL, if_pos (by omega)]; simp
    · rw [if_neg hL, if_neg (by omega)]

/-- C2 at level 3: the three calls of `spaced 10000 3` after `Stop ()` are all
due and end in `STOPPED` at level 0 with 0 on the active line. -/
theorem ramp_down_from_at_speed_witness :
    atSpeed3.state = AT_SPEED ∧ atSpeed3.currentPWM = 3 ∧ atSpeed3.targetPWM = 3 ∧
    (1 : Int) ≤ 3 ∧ (3 : Int) ≤ 250 ∧
    (∀ x ∈ spaced 10000 3, NoLimit (Stop atSpeed3 0) x) ∧
    dueRuns (Stop atSpeed3 0) (spaced 10000 3) = 3 ∧
    (runs (Stop atSpeed3 0) (spaced 10000 3)).currentPWM = 0 ∧
    duty (runs (Stop atSpeed3 0) (spaced 10000 3)) Line.pin2 = 0 ∧
    (runs (Stop atSpeed3 0) (spaced 10000 3)).state = STOPPED := by
  have hq : ∀ x ∈ spaced 10000 3, NoLimit (Stop atSpeed3 0) x := by decide
  have hn : dueRuns (Stop atSpeed3 0) (spaced 10000 3) = 3 := by decide
  have h := (ramp_down_from_at_speed atSpeed3 3 0 (by decide) (by decide) (by decide)
    (by decide) (by decide)).2.2.2 (spaced 10000 3) hq
  rw [hn] at h
  refine ⟨by decide, by decide, by decide, by decide, by decide, hq, hn, ?_, ?_, ?_⟩
  · rw [h.1]; rfl
  · exact (h.2.2.2.1 (by decide)).trans (by decide)
  · rw [h.2.2.2.2]; decide

/-! ## Emergency stop (C3) -/

/-- C3. In every controller state `EStop ()` writes duty 0 to both output
lines (and nothing else), sets the state to `STOPPED`, and leaves
`currentDirection`, `targetPWM`, `currentPWM`, `pwmIncrement`, `rampPeriod`
and `nextPWMMicros` as they were. -/
theorem EStop_effect (m : Motor) :
    (EStop m).out1 = 0 ∧ (EStop m).out2 = 0 ∧
    (EStop m).log = m.log ++ [(Line.pin1, 0), (Line.pin2, 0)] ∧
    (EStop m).state = STOPPED ∧
    (EStop m).currentDirection = m.currentDirection ∧
    (EStop m).targetPWM = m.targetPWM ∧
    (EStop m).currentPWM = m.currentPWM ∧
    (EStop m).pwmIncrement = m.pwmIncrement ∧
    (EStop m).rampPeriod = m.rampPeriod ∧
    (EStop m).nextPWMMicros = m.nextPWMMicros := by
  simp [EStop, analogWrite]

/-! ## Limit switches (C4) -/

/-- C4. For every controller state and every reading, `Run ()` returns
`LIMIT_SWITCH_LOWER` exactly when the state is not `STOPPED` and the lower pin
is configured and reads `LOW`; `LIMIT_SWITCH_UPPER` exactly when the state is
not `STOPPED`, the lower condition fails and the upper pin is configured and
reads `LOW`; and `OKAY` in every other case. In both limit cases the
controller is exactly `EStop ()` of the one before: no ramp step, both lines
at 0, state `STOPPED`. A `STOPPED` controller returns `OKAY` unchanged. -/
theorem Run_limit_switches (m : Motor) (s : Sample) :
    ((Run m s).1 = LIMIT_SWITCH_LOWER ↔
      (m.state ≠ STOPPED ∧ m.llSwitchPin ≠ 0 ∧ s.llLow = true)) ∧
    ((Run m s).1 = LIMIT_SWITCH_UPPER ↔
      (m.state ≠ STOPPED ∧ ¬ (m.llSwitchPin ≠ 0 ∧ s.llLow = true) ∧
        m.ulSwitchPin ≠ 0 ∧ s.ulLow = true)) ∧
    ((Run m s).1 = LIMIT_SWITCH_LOWER ∨ (Run m s).1 = LIMIT_SWITCH_UPPER ∨
      (Run m s).1 = OKAY) ∧
    ((Run m s).1 ≠ OKAY →
      (Run m s).2 = EStop m ∧ (Run m s).2.currentPWM = m.currentPWM ∧
      (Run m s).2.out1 = 0 ∧ (Run m s).2.out2 = 0 ∧ (Run m s).2.state = STOPPED) ∧
    (m.state = STOPPED → Run m s = (OKAY, m)) := by
  unfold Run
  by_cases h0 : m.state = STOPPED
  · simp [h0]
  · by_cases hl : m.llSwitchPin ≠ 0 ∧ s.llLow = true
    · simp [h0, hl, EStop, analogWrite]
    · by_cases hu : m.ulSwitchPin ≠ 0 ∧ s.ulLow = true
      · simp only [ne_eq, h0, not_false_eq_true, if_true, hl, if_false, hu]
        simp [EStop, analogWrite, hl]
      · simp only [ne_eq, h0, not_false_eq_true, if_true, hl, if_false, hu]
        split_ifs <;> simp [hl, hu]

/-! ## The frame of a direction reversal -/

/-- What any call of `Run` leaves alone: the direction; every write it makes
is on the active line or is a 0; a 0 on the inactive line stays; and a call
that stops a running motor leaves 0 on the active line. -/
theorem Run_frame (m : Motor) (s : Sample) :
    (Run m s).2.currentDirection = m.currentDirection ∧
    (∃ w, (Run m s).2.log = m.log ++ w ∧
      ∀ e ∈ w, e.1 = activeLine m.currentDirection ∨ e.2 = 0) ∧
    (duty m (inactiveLine m.currentDirection) = 0 →
      duty (Run m s).2 (inactiveLine m.currentDirection) = 0) ∧
    (m.state ≠ STOPPED → (Run m s).2.state = STOPPED →
      duty (Run m s).2 (activeLine m.currentDirection) = 0) := by
  unfold Run
  dsimp only
  split_ifs <;>
    cases hdir : m.currentDirection <;>
    simp [EStop, analogWrite, activeLine, inactiveLine, duty, hdir] at * <;>
    first
      | omega
      | simp_all

/-- The frame of `Run`, along the reversal loop. -/
theorem drain_frame (ss : List Sample) : ∀ (m : Motor),
    (drain m ss).currentDirection = m.currentDirection ∧
    (∃ w, (drain m ss).log = m.log ++ w ∧
      ∀ e ∈ w, e.1 = activeLine m.currentDirection ∨ e.2 = 0) ∧
    (duty m (inactiveLine m.currentDirection) = 0 →
      duty (drain m ss) (inactiveLine m.currentDirection) = 0) ∧
    (m.state ≠ STOPPED → (drain m ss).state = STOPPED →
      duty (drain m ss) (activeLine m.currentDirection) = 0) := by
  induction ss with
  | nil =>
    intro m
    exact ⟨rfl, ⟨[], by simp [drain], by simp⟩, fun h => h, fun h1 h2 => absurd h2 h1⟩
  | cons s ss ih =>
    intro m
    by_cases hst : m.state = STOPPED
    · have hd : drain m (s :: ss) = m := by simp [drain, hst]
      rw [hd]
      exact ⟨rfl, ⟨[], by simp, by simp⟩, fun h => h, fun h1 _ => absurd hst h1⟩
    · have hd : drain m (s :: ss) = drain (Run m s).2 ss := by simp [drain, hst]
      rw [hd]
      obtain ⟨r1, ⟨w1, r2, r3⟩, r4, r5⟩ := Run_frame m s
      obtain ⟨i1, ⟨w2, i2, i3⟩, i4, i5⟩ := ih (Run m s).2
      rw [r1] at i1 i3 i4 i5
      refine ⟨i1, ⟨w1 ++ w2, ?_, ?_⟩, fun h => i4 (r4 h), fun _ hfin => ?_⟩
      · rw [i2, r2, List.append_assoc]
      · intro e he
        rcases List.mem_append.mp he with h | h
        · exact r3 e h
        · exact i3 e h
      · by_cases hmid : (Run m s).2.state = STOPPED
        · have hd2 : drain (Run m s).2 ss = (Run m s).2 := by
            cases ss with
            | nil => rfl
            | cons a as => simp [drain, hmid]
          rw [hd2]
          exact r5 hst hmid
        · exact i5 hmid hfin

/-- Two different lines at 0 are both lines at 0. -/
theorem both_zero (m : Motor) (a b : Line) (hab : a ≠ b)
    (ha : duty m a = 0) (hb : duty m b = 0) : m.out1 = 0 ∧ m.out2 = 0 := by
  cases a <;> cases b <;> simp_all [duty]

/-- The two directions use different lines. -/
theorem activeLine_other (d d' : Direction) (h : d' ≠ d) :
    activeLine d' = inactiveLine d ∧ inactiveLine d' = activeLine d := by
  cases d <;> cases d' <;> simp_all [activeLine, inactiveLine]

/-- What `Stop` leaves alone: it writes nothing and keeps the direction, and a
running motor is still not `STOPPED` after it. -/
theorem Stop_frame (m : Motor) (t : Nat) :
    (Stop m t).log = m.log ∧ (Stop m t).currentDirection = m.currentDirection ∧
    (Stop m t).out1 = m.out1 ∧ (Stop m t).out2 = m.out2 ∧
    (m.state ≠ STOPPED → (Stop m t).state ≠ STOPPED) := by
  unfold Stop
  split_ifs <;> simp

/-- The speed after the check at the head of `Go`. -/
theorem clampSpeed_eq (s : Int) : clampSpeed s = min 100 (max 0 s) := by
  unfold clampSpeed
  split_ifs <;> omega

/-- The frame of a reversal. Let the controller be in any state other than
`STOPPED`, with the line of the new direction `d'` (the other direction) at 0.
During `Go (d', s)`, after any number of iterations of the reversal loop,
every write made so far is on the line of the old direction or is a 0, so no
non-zero duty has been written to the line of `d'`, which is still at 0. If
the call returns, the same holds of all its writes, both lines are at 0, and
the controller is in `RAMPING_UP` with `currentDirection = d'`,
`currentPWM = 0` and `targetPWM = min (s, 100) * 250 / 100` when the clamped
speed is at least 1, and `STOPPED` when it is 0. -/
theorem reversal_frame (m : Motor) (d' : Direction) (s : Int)
    (tStop tGo : Nat)
    (hst : m.state ≠ STOPPED) (hd : d' ≠ m.currentDirection)
    (h0 : duty m (activeLine d') = 0) :
    (∀ ss : List Sample,
      (∃ w, (drain (Stop m tStop) ss).log = m.log ++ w ∧
        (∀ e ∈ w, e.1 = activeLine m.currentDirection ∨ e.2 = 0) ∧
        (∀ e ∈ w, e.1 = activeLine d' → e.2 = 0)) ∧
      duty (drain (Stop m tStop) ss) (activeLine d') = 0) ∧
    (∀ (ss : List Sample) (g : Motor), Go m d' s tStop ss tGo = some g →
      (∃ w, g.log = m.log ++ w ∧
        (∀ e ∈ w, e.1 = activeLine m.currentDirection ∨ e.2 = 0) ∧
        (∀ e ∈ w, e.1 = activeLine d' → e.2 = 0)) ∧
      g.out1 = 0 ∧ g.out2 = 0 ∧
      (1 ≤ clampSpeed s →
        g.state = RAMPING_UP ∧ g.currentDirection = d' ∧ g.currentPWM = 0 ∧
        g.targetPWM = min s 100 * 250 / 100) ∧
      (clampSpeed s = 0 → g.state = STOPPED)) := by
  obtain ⟨hl1, hl2⟩ := activeLine_other m.currentDirection d' hd
  obtain ⟨s1, s2, s3, s4, s5⟩ := Stop_frame m tStop
  have hne : activeLine d' ≠ activeLine m.currentDirection := by
    revert hd; cases d' <;> cases m.currentDirection <;> simp [activeLine]
  have hweak : ∀ w : List (Line × Int),
      (∀ e ∈ w, e.1 = activeLine m.currentDirection ∨ e.2 = 0) →
      ∀ e ∈ w, e.1 = activeLine d' → e.2 = 0 := by
    intro w hw e he h1
    rcases hw e he with h | h
    · exact absurd (h1.symm.trans h) hne
    · exact h
  have h0S : duty (Stop m tStop) (inactiveLine (Stop m tStop).currentDirection) = 0 := by
    rw [s2, ← hl1]
    revert h0
    cases activeLine d' <;> simp [duty, s3, s4]
  have hloop : ∀ ss : List Sample,
      (∃ w, (drain (Stop m tStop) ss).log = m.log ++ w ∧
        (∀ e ∈ w, e.1 = activeLine m.currentDirection ∨ e.2 = 0) ∧
        (∀ e ∈ w, e.1 = activeLine d' → e.2 = 0)) ∧
      duty (drain (Stop m tStop) ss) (activeLine d') = 0 := by
    intro ss
    obtain ⟨-, ⟨w, f2, f3⟩, f4, -⟩ := drain_frame ss (Stop m tStop)
    rw [s2] at f3 f4
    rw [s1] at f2
    rw [s2, ← hl1] at h0S
    exact ⟨⟨w, f2, f3, hweak w f3⟩, by rw [hl1]; exact f4 (by rw [← hl1]; exact h0S)⟩
  refine ⟨hloop, ?_⟩
  intro ss g hg
  obtain ⟨⟨w, f2, f3, f3'⟩, f4⟩ := hloop ss
  obtain ⟨f1, -, -, f5⟩ := drain_frame ss (Stop m tStop)
  rw [s2] at f1 f5
  -- the loop has exited in `STOPPED`, and the new motion begins from there
  have hstop : (drain (Stop m tStop) ss).state = STOPPED ∧
      g = beginMotion (drain (Stop m tStop) ss) d' (clampSpeed s) tGo := by
    unfold Go at hg
    simp only [hst, ne_eq, not_false_eq_true, if_true, hd, if_false, waitStopped] at hg
    by_cases hfin : (drain (Stop m tStop) ss).state = STOPPED
    · simp only [hfin, not_true_eq_false, if_false] at hg
      exact ⟨hfin, (Option.some.inj hg).symm⟩
    · simp [hfin] at hg
  obtain ⟨hfin, hgeq⟩ := hstop
  have f6 := f5 (s5 hst) hfin
  have hc := clampSpeed_eq s
  by_cases hz : clampSpeed s = 0
  · have hgm : g = drain (Stop m tStop) ss := by rw [hgeq]; simp [beginMotion, hz]
    rw [hgm]
    have hb := both_zero _ _ _ hne f4 f6
    exact ⟨⟨w, f2, f3, f3'⟩, hb.1, hb.2, fun h => by omega, fun _ => hfin⟩
  · have hlog : g.log = m.log ++ (w ++ [(activeLine m.currentDirection, 0)]) := by
      rw [hgeq]
      simp [beginMotion, hz, digitalWriteLow, analogWrite, hl2, f2]
      cases activeLine m.currentDirection <;> simp [f2]
    have ho : g.out1 = 0 ∧ g.out2 = 0 := by
      rw [hgeq]
      simp only [beginMotion, hz, ne_eq, not_false_eq_true, if_true, digitalWriteLow, hl2]
      revert f4 hne
      cases activeLine d' <;> cases activeLine m.currentDirection <;>
        simp [duty, analogWrite]
    refine ⟨⟨_, hlog, ?_, ?_⟩, ho.1, ho.2, fun h1 => ?_, fun h => absurd h hz⟩
    · intro e he
      rcases List.mem_append.mp he with h | h
      · exact f3 e h
      · simp only [List.mem_singleton] at h; rw [h]; exact Or.inr rfl
    · apply hweak
      intro e he
      rcases List.mem_append.mp he with h | h
      · exact f3 e h
      · simp only [List.mem_singleton] at h; rw [h]; exact Or.inr rfl
    · rw [hgeq]
      have hmin : min s 100 = clampSpeed s := by omega
      rw [hmin]
      simp only [beginMotion, hz, ne_eq, not_false_eq_true, if_true, digitalWriteLow,
        analogWrite]
      cases inactiveLine d' <;> simp

/-! ## Reversal at level 0 (C5, C6) -/

/-- A climbing controller is still climbing after any call of `Run`. -/
theorem Run_climbing (m : Motor) (s : Sample) (h : Climbing m) :
    Climbing (Run m s).2 := by
  obtain ⟨hl, hu, hi, hs⟩ := h
  have hnl : NoLimit m s := by simp [NoLimit, hl, hu]
  rcases hs with ⟨h1, h2, h3⟩ | h1
  · have n1 : m.state ≠ STOPPED := by rw [h1]; decide
    have n2 : m.state ≠ AT_SPEED := by rw [h1]; decide
    by_cases hdue : m.nextPWMMicros ≤ micros s.clock
    · obtain ⟨-, hc, -, -, -, hst, htg, hinc, -, hll, hul, -⟩ :=
        Run_ramp_step m s n1 n2 hnl hdue
      refine ⟨by rw [hll, hl], by rw [hul, hu], by rw [hinc, hi], ?_⟩
      rw [hst, hc, htg, hi, h1]
      by_cases hr : m.currentPWM + 1 = m.targetPWM
      · right
        rw [if_pos hr, if_neg (by omega)]
      · left
        rw [if_neg hr]
        exact ⟨rfl, by omega, by omega⟩
    · rw [Run_not_due m s n1 n2 hnl (by omega)]
      exact ⟨hl, hu, hi, Or.inl ⟨h1, h2, h3⟩⟩
  · have hR : Run m s = (OKAY, m) := by
      simp [Run, h1, hl, hu]
    rw [hR]
    exact ⟨hl, hu, hi, Or.inr h1⟩

/-- The reversal loop on a climbing controller never sees `STOPPED`. -/
theorem drain_climbing (ss : List Sample) : ∀ (m : Motor),
    Climbing m → Climbing (drain m ss) := by
  induction ss with
  | nil => intro m h; exact h
  | cons s ss ih =>
    intro m h
    unfold drain
    split_ifs
    · exact ih _ (Run_climbing m s h)
    · exact h

set_option maxRecDepth 1000000 in
/-- C5 fails on the state reached by `Go (CW, 50)` on a fresh controller
(`RAMPING_UP` at level 0 in direction `CW`, both lines at 0). In
`Go (CCW, 50)`, `Stop ()` changes nothing; the first iteration of the loop
writes the level 1 to the line of `CW` with the state still `RAMPING_UP`: a
step up, which is neither a step of a ramp-down nor an emergency stop to 0.
After the 125 due iterations of `spaced 10000 125` the writes of the call are
`1, 2, ..., 125` on the line of `CW`, which carries 125, and the state is
`AT_SPEED`. Whatever the readings, the loop never sees `STOPPED` and the call
does not return. -/
theorem reversal_steps_up_at_level_zero :
    ∃ r, Go fresh CW 50 0 [] 0 = some r ∧ Reachable r ∧
      r.state = RAMPING_UP ∧ r.currentDirection = CW ∧ r.currentPWM = 0 ∧
      r.out1 = 0 ∧ r.out2 = 0 ∧
      Stop r 0 = r ∧
      (drain (Stop r 0) [quiet 0]).log = r.log ++ [(activeLine CW, 1)] ∧
      (drain (Stop r 0) [quiet 0]).state = RAMPING_UP ∧
      (drain (Stop r 0) (spaced 10000 125)).log =
        r.log ++ rampWrites (activeLine CW) 0 1 125 ∧
      (drain (Stop r 0) (spaced 10000 125)).state = AT_SPEED ∧
      (drain (Stop r 0) (spaced 10000 125)).out2 = 125 ∧
      ∀ (ss : List Sample) (tGo : Nat),
        (drain (Stop r 0) ss).state ≠ STOPPED ∧ Go r CCW 50 0 ss tGo = none := by
  refine ⟨_, rfl, ⟨5, 6, 0, 0, 0, 0, [Call.go CW 50 0 [] 0], rfl⟩, by decide, by decide,
    by decide, by decide, by decide, by decide, by decide, by decide, by decide, by decide,
    by decide, ?_⟩
  intro ss tGo
  have hS : Stop (beginMotion fresh CW 50 0) 0 = beginMotion fresh CW 50 0 := by decide
  have hclimb : Climbing (beginMotion fresh CW 50 0) := by
    unfold Climbing; decide
  have hns : (drain (beginMotion fresh CW 50 0) ss).state ≠ STOPPED := by
    obtain ⟨-, -, -, h | h⟩ := drain_climbing ss _ hclimb
    · rw [h.1]; decide
    · rw [h]; decide
  have hst : (beginMotion fresh CW 50 0).state ≠ STOPPED := by decide
  have hdir : CCW ≠ (beginMotion fresh CW 50 0).currentDirection := by decide
  constructor
  · show (drain (Stop (beginMotion fresh CW 50 0) 0) ss).state ≠ STOPPED
    rw [hS]; exact hns
  · show Go (beginMotion fresh CW 50 0) CCW 50 0 ss tGo = none
    unfold Go
    simp only [hst, ne_eq, not_false_eq_true, if_true, hdir, if_false, hS, waitStopped, hns]

/-- C6 fails on the state reached by `Go (CW, 50)` on a fresh controller
(`RAMPING_UP` at level 0): `Stop ()` does nothing there, and `Go (CCW, 50)`
does not return, whatever the readings of its loop are. -/
theorem reversal_at_level_zero_never_returns :
    ∃ r, Go fresh CW 50 0 [] 0 = some r ∧ Reachable r ∧
      r.state = RAMPING_UP ∧ r.currentPWM = 0 ∧ r.currentDirection = CW ∧
      ∀ (tStop : Nat) (ss : List Sample) (tGo : Nat),
        Stop r tStop = r ∧ Go r CCW 50 tStop ss tGo = none := by
  refine ⟨_, rfl, ⟨5, 6, 0, 0, 0, 0, [Call.go CW 50 0 [] 0], rfl⟩, by decide, by decide,
    by decide, ?_⟩
  intro tStop ss tGo
  have hS : Stop (beginMotion fresh CW 50 0) tStop = beginMotion fresh CW 50 0 := by
    have : (beginMotion fresh CW 50 0).currentPWM = 0 := by decide
    simp [Stop, this]
  have hclimb : Climbing (beginMotion fresh CW 50 0) := by
    unfold Climbing; decide
  have hd := drain_climbing ss _ hclimb
  have hns : (drain (beginMotion fresh CW 50 0) ss).state ≠ STOPPED := by
    obtain ⟨-, -, -, h | h⟩ := hd
    · rw [h.1]; decide
    · rw [h]; decide
  have hst : (beginMotion fresh CW 50 0).state ≠ STOPPED := by decide
  have hdir : CCW ≠ (beginMotion fresh CW 50 0).currentDirection := by decide
  refine ⟨hS, ?_⟩
  show Go (beginMotion fresh CW 50 0) CCW 50 tStop ss tGo = none
  unfold Go
  simp only [hst, ne_eq, not_false_eq_true, if_true, hdir, if_false, hS, waitStopped, hns]

/-! ## Stop at level 0 (C7) -/

set_option maxRecDepth 1000000 in
/-- C7 fails on the state reached by `Go (CW, 50)` on a fresh controller
(`RAMPING_UP` at level 0, target 125): `Stop ()` changes nothing, so the
controller is not ramping down toward 0, it is not `STOPPED` after
`currentPWM = 0` calls of `Run`, and after the 125 due calls of
`spaced 10000 125` the motor is `AT_SPEED` at level 125. -/
theorem stop_at_level_zero_ignored :
    ∃ r, Go fresh CW 50 0 [] 0 = some r ∧ Reachable r ∧
      r.state = RAMPING_UP ∧ r.currentPWM = 0 ∧
      Stop r 0 = r ∧ (Stop r 0).state = RAMPING_UP ∧ (Stop r 0).targetPWM = 125 ∧
      (runs (Stop r 0) []).state ≠ STOPPED ∧
      dueRuns (Stop r 0) (spaced 10000 125) = 125 ∧
      (runs (Stop r 0) (spaced 10000 125)).state = AT_SPEED ∧
      (runs (Stop r 0) (spaced 10000 125)).currentPWM = 125 ∧
      (runs (Stop r 0) (spaced 10000 125)).out2 = 125 := by
  refine ⟨_, rfl, ⟨5, 6, 0, 0, 0, 0, [Call.go CW 50 0 [] 0], rfl⟩, ?_⟩
  decide

/-! ## The level range (C8) -/

/-- A state reached by a sequence of calls on a fresh controller is reachable. -/
theorem Reachable_of_fresh (cs : List Call) (m : Motor)
    (h : performAll fresh cs = some m) : Reachable m :=
  ⟨5, 6, 0, 0, 0, 0, cs, h⟩

/-- Calls of `Run` as a sequence of calls. -/
theorem performAll_runs (ss : List Sample) : ∀ (m : Motor),
    performAll m (ss.map Call.run) = some (runs m ss) := by
  induction ss with
  | nil => intro m; rfl
  | cons s ss ih => intro m; simp [performAll, perform, runs, ih]

/-- One sequence of calls after another. -/
theorem performAll_append (cs ds : List Call) : ∀ (m r : Motor),
    performAll m cs = some r → performAll m (cs ++ ds) = performAll r ds := by
  induction cs with
  | nil => intro m r h; simp [performAll] at h; simp [h]
  | cons c cs ih =>
    intro m r h
    simp only [performAll, List.cons_append] at h ⊢
    cases hp : perform m c with
    | none => simp [hp] at h
    | some m1 => simp only [hp] at h ⊢; exact ih m1 r h

/-- A ramping controller whose step points away from its target, or that
stands on its target, moves one unit further at every due call of `Run` and
never leaves its state; no limit switch is triggered along the readings. -/
theorem runs_runaway (ss : List Sample) : ∀ (m : Motor),
    m.state ≠ STOPPED → m.state ≠ AT_SPEED →
    ((m.pwmIncrement = 1 ∧ m.targetPWM ≤ m.currentPWM) ∨
      (m.pwmIncrement = -1 ∧ m.currentPWM ≤ m.targetPWM)) →
    (∀ s ∈ ss, NoLimit m s) →
    (runs m ss).currentPWM = m.currentPWM + m.pwmIncrement * dueRuns m ss ∧
    (runs m ss).state = m.state ∧
    duty (runs m ss) (activeLine m.currentDirection) =
      (if dueRuns m ss = 0 then duty m (activeLine m.currentDirection)
        else (runs m ss).currentPWM) := by
  induction ss with
  | nil => intro m _ _ _ _; simp [runs, dueRuns]
  | cons s ss ih =>
    intro m h1 h2 haway hl
    obtain ⟨hs, hrest⟩ := NoLimit_Run m s ss hl
    by_cases hdue : m.nextPWMMicros ≤ micros s.clock
    · obtain ⟨-, hc, -, hact, -, hst, htg, hi, hdir, -, -, -⟩ :=
        Run_ramp_step m s h1 h2 hs hdue
      have hcount : dueRuns m (s :: ss) = dueRuns (Run m s).2 ss + 1 := by
        simp only [dueRuns, h1, h2, hdue, ne_eq, not_false_eq_true, and_self, if_true]
        omega
      have hmiss : ¬ m.currentPWM + m.pwmIncrement = m.targetPWM := by
        rcases haway with ⟨a, b⟩ | ⟨a, b⟩ <;> rw [a] <;> omega
      rw [if_neg hmiss] at hst
      obtain ⟨jc, jst, jact⟩ := ih (Run m s).2 (by rw [hst]; exact h1)
        (by rw [hst]; exact h2)
        (by rw [hi, htg, hc]; rcases haway with ⟨a, b⟩ | ⟨a, b⟩ <;> rw [a] <;> omega) hrest
      rw [hdir] at jact
      rw [hcount]
      simp only [runs, Nat.cast_add, Nat.cast_one]
      refine ⟨by rw [jc, hc, hi]; ring, by rw [jst, hst], ?_⟩
      rw [if_neg (by omega), jact]
      by_cases hz : dueRuns (Run m s).2 ss = 0
      · rw [if_pos hz, jc, hz, hact, hc]; simp
      · rw [if_neg hz]
    · have hR := Run_not_due m s h1 h2 hs (by omega)
      have hcount : dueRuns m (s :: ss) = dueRuns (Run m s).2 ss := by
        simp only [dueRuns, hdue, and_false, if_false, zero_add]
      have hm : (Run m s).2 = { m with now := micros s.clock } := by rw [hR]
      rw [hcount]
      simp only [runs, hm] at hrest ⊢
      exact ih { m with now := micros s.clock } h1 h2 haway hrest

set_option maxRecDepth 1000000 in
/-- C8 fails. After `Go (CW, 1)` (target 2), two calls of `Run` (`AT_SPEED` at
2), `Stop ()` and `Go (CW, 1)` again (the level of the request equals
`currentPWM`, so the state stays `RAMPING_DOWN` while `targetPWM` becomes 2),
three calls of `Run` bring `currentPWM` to -1, written to the line. After
`Go (CW, 50)` and `Go (CW, 0)` (state `RAMPING_UP` at level 0 with target 0),
any calls of `Run` of which `n` are due lead to a reachable state at level
`n`, written to the line, whatever `n` is: 251 after the 251 calls of
`spaced 10000 251`. -/
theorem level_range_fails :
    (performAll fresh dipCalls = some dipped ∧ Reachable dipped ∧
      dipped.currentPWM = -1 ∧ dipped.out2 = -1 ∧ dipped.state = RAMPING_DOWN) ∧
    (performAll fresh stallCalls = some stalled ∧
      stalled.state = RAMPING_UP ∧ stalled.currentPWM = 0 ∧ stalled.targetPWM = 0 ∧
      (∀ ss : List Sample,
        Reachable (runs stalled ss) ∧ (runs stalled ss).currentPWM = dueRuns stalled ss ∧
        (0 < dueRuns stalled ss → (runs stalled ss).out2 = dueRuns stalled ss)) ∧
      dueRuns stalled (spaced 10000 251) = 251) := by
  have hdip : performAll fresh dipCalls = some dipped := by decide
  have hstall : performAll fresh stallCalls = some stalled := by decide
  refine ⟨⟨hdip, Reachable_of_fresh dipCalls _ hdip, by decide, by decide, by decide⟩,
    ⟨hstall, by decide, by decide, by decide, ?_, by decide⟩⟩
  intro ss
  have hq : ∀ x ∈ ss, NoLimit stalled x := by
    intro x _
    have a : stalled.llSwitchPin = 0 := by decide
    have b : stalled.ulSwitchPin = 0 := by decide
    simp [NoLimit, a, b]
  obtain ⟨hc, -, hact⟩ :=
    runs_runaway ss stalled (by decide) (by decide) (Or.inl (by decide)) hq
  have hreach := performAll_append stallCalls (ss.map Call.run) fresh _ hstall
  rw [performAll_runs] at hreach
  have e1 : stalled.currentPWM = 0 := by decide
  have e2 : stalled.pwmIncrement = 1 := by decide
  have e3 : activeLine stalled.currentDirection = Line.pin2 := by decide
  have hc2 : (runs stalled ss).currentPWM = dueRuns stalled ss := by rw [hc, e1, e2]; ring
  refine ⟨Reachable_of_fresh _ _ hreach, hc2, fun h => ?_⟩
  rw [e3, if_neg (by omega), hc2] at hact
  exact hact

/-! ## A request for the present level (C9) -/

/-- C9 fails on the state reached from a fresh controller by `Go (CW, 2)`
(target 5) and two due calls of `Run` (`RAMPING_UP` at level 2): the level of
`Go (CW, 1)` is 2, the present level, yet the call changes `targetPWM` from 5
to 2 and leaves the state `RAMPING_UP`, and the next due call of `Run` moves
the level to 3, past the target. -/
theorem same_level_request_not_ignored :
    ∃ r g, performAll fresh
        [Call.go CW 2 0 [] 0, Call.run (quiet 0), Call.run (quiet 10000)] = some r ∧
      r.state = RAMPING_UP ∧ r.currentDirection = CW ∧ r.currentPWM = 2 ∧
      r.targetPWM = 5 ∧ min 100 (max 0 (1 : Int)) * 250 / 100 = r.currentPWM ∧
      Go r CW 1 0 [] 0 = some g ∧ g ≠ r ∧ g.targetPWM = 2 ∧ g.state = RAMPING_UP ∧
      g.pwmIncrement = 1 ∧
      (Run g (quiet 20000)).2.currentPWM = 3 ∧ (Run g (quiet 20000)).2.state = RAMPING_UP := by
  refine ⟨_, _, rfl, by decide, by decide, by decide, by decide, by decide, rfl, by decide,
    by decide, by decide, by decide, by decide, by decide⟩

/-! ## Stopped means level zero (C10) -/

/-- A call of `Run` with no limit switch triggered keeps `StoppedAtZero`. -/
theorem Run_stoppedAtZero (m : Motor) (s : Sample) (hl : NoLimit m s)
    (h : StoppedAtZero m) : StoppedAtZero (Run m s).2 := by
  by_cases h1 : m.state = STOPPED
  · have hR : Run m s = (OKAY, m) := by simp [Run, h1]
    rw [hR]; exact h
  · by_cases h2 : m.state = AT_SPEED
    · have hR : Run m s = (OKAY, m) := by
        obtain ⟨a, b⟩ := hl
        simp [Run, h2, a, b]
      rw [hR]; exact h
    · by_cases hdue : m.nextPWMMicros ≤ micros s.clock
      · obtain ⟨-, hc, -, -, -, hst, -⟩ := Run_ramp_step m s h1 h2 hl hdue
        intro hstop
        rw [hst] at hstop
        rw [hc]
        by_cases hr : m.currentPWM + m.pwmIncrement = m.targetPWM
        · rw [if_pos hr] at hstop
          by_cases h0 : m.targetPWM = 0
          · rw [hr, h0]
          · rw [if_neg h0] at hstop; exact absurd hstop (by decide)
        · rw [if_neg hr] at hstop; exact absurd hstop h1
      · rw [Run_not_due m s h1 h2 hl (by omega)]
        intro hstop
        exact absurd hstop h1

/-- The reversal loop with no limit switch triggered keeps `StoppedAtZero`. -/
theorem drain_stoppedAtZero (ss : List Sample) : ∀ (m : Motor),
    (∀ s ∈ ss, NoLimit m s) → StoppedAtZero m → StoppedAtZero (drain m ss) := by
  induction ss with
  | nil => intro m _ h; exact h
  | cons s ss ih =>
    intro m hl h
    unfold drain
    split_ifs
    · refine ih _ (fun x hx => ?_) (Run_stoppedAtZero m s (hl s (List.mem_cons_self s ss)) h)
      have hx2 := hl x (List.mem_cons_of_mem s hx)
      obtain ⟨p1, p2⟩ := Run_pins m s
      unfold NoLimit at hx2 ⊢
      rw [p1, p2]
      exact hx2
    · exact h

/-- The method `Stop` keeps `StoppedAtZero`, and so does `SetRamp`. -/
theorem Stop_stoppedAtZero (m : Motor) (t : Nat) (h : StoppedAtZero m) :
    StoppedAtZero (Stop m t) ∧ ∀ ramp, StoppedAtZero (SetRamp m ramp) := by
  constructor
  · unfold Stop
    split_ifs
    · intro hs; simp at hs
    · exact h
  · intro ramp
    unfold SetRamp
    split_ifs
    · exact h
    · exact h

/-- The tail of `Go` keeps `StoppedAtZero`. -/
theorem beginMotion_stoppedAtZero (m : Motor) (dir : Direction) (speed : Int) (t : Nat)
    (h : StoppedAtZero m) : StoppedAtZero (beginMotion m dir speed t) := by
  unfold beginMotion
  split_ifs
  · intro hs; simp at hs
  · exact h

/-- The method `Go` with no limit switch triggered keeps `StoppedAtZero`. -/
theorem Go_stoppedAtZero (m g : Motor) (dir : Direction) (speed : Int)
    (tStop : Nat) (ss : List Sample) (tGo : Nat)
    (hl : ∀ s ∈ ss, NoLimit m s) (h : StoppedAtZero m)
    (hg : Go m dir speed tStop ss tGo = some g) : StoppedAtZero g := by
  unfold Go at hg
  dsimp only at hg
  by_cases h1 : m.state = STOPPED
  · simp only [h1, ne_eq, not_true_eq_false, if_false] at hg
    rw [← Option.some.inj hg]
    exact beginMotion_stoppedAtZero _ _ _ _ h
  · simp only [h1, ne_eq, not_false_eq_true, if_true] at hg
    by_cases hd : dir = m.currentDirection
    · simp only [hd, if_true] at hg
      split_ifs at hg <;> rw [← Option.some.inj hg] <;> intro hs
      · simp at hs
      · simp at hs
      · exact absurd hs h1
    · simp only [hd, if_false, waitStopped] at hg
      have hdr := drain_stoppedAtZero ss (Stop m tStop)
        (fun x hx => by
          have := hl x hx
          unfold NoLimit at this ⊢
          unfold Stop
          split_ifs <;> exact this)
        (Stop_stoppedAtZero m tStop h).1
      split_ifs at hg
      rw [← Option.some.inj hg]
      exact beginMotion_stoppedAtZero _ _ _ _ hdr

/-- What a command can do to the controller: nothing, `EStop` (the `ES`
command only), `SetRamp`, `Stop`, or `Go`. -/
theorem ExecuteCommand_cases (m g : Motor) (packet reply : String)
    (tStop : Nat) (ss : List Sample) (tGo : Nat)
    (hg : ExecuteCommand m packet tStop ss tGo = some (reply, g)) :
    g = m ∨ (packet.data.take 2 = ['E', 'S'] ∧ g = EStop m) ∨
    (∃ ramp, g = SetRamp m ramp) ∨ g = Stop m tStop ∨
    (∃ dir speed, Go m dir speed tStop ss tGo = some g) := by
  unfold ExecuteCommand at hg
  dsimp only at hg
  split_ifs at hg with h1 h2 h3 h4 h5 h6 h7 h8 h9 h10
  all_goals first
    | (obtain ⟨-, rfl⟩ := Prod.mk.inj (Option.some.inj hg); exact Or.inl rfl)
    | (obtain ⟨-, rfl⟩ := Prod.mk.inj (Option.some.inj hg); exact Or.inr (Or.inl ⟨h2, rfl⟩))
    | (obtain ⟨-, rfl⟩ := Prod.mk.inj (Option.some.inj hg)
       exact Or.inr (Or.inr (Or.inl ⟨_, rfl⟩)))
    | (obtain ⟨-, rfl⟩ := Prod.mk.inj (Option.some.inj hg)
       exact Or.inr (Or.inr (Or.inr (Or.inl rfl))))
    | (split at hg
       · exact absurd hg (by simp)
       · rename_i g1 hgo
         obtain ⟨-, rfl⟩ := Prod.mk.inj (Option.some.inj hg)
         exact Or.inr (Or.inr (Or.inr (Or.inr ⟨_, _, hgo⟩))))

/-- A command other than `ES`, with no limit switch triggered, keeps
`StoppedAtZero`. -/
theorem ExecuteCommand_stoppedAtZero (m g : Motor) (packet reply : String)
    (tStop : Nat) (ss : List Sample) (tGo : Nat)
    (hes : packet.data.take 2 ≠ ['E', 'S'])
    (hl : ∀ s ∈ ss, NoLimit m s) (h : StoppedAtZero m)
    (hg : ExecuteCommand m packet tStop ss tGo = some (reply, g)) : StoppedAtZero g := by
  rcases ExecuteCommand_cases m g packet reply tStop ss tGo hg with
    rfl | ⟨h1, -⟩ | ⟨ramp, rfl⟩ | rfl | ⟨dir, speed, hgo⟩
  · exact h
  · exact absurd h1 hes
  · exact (Stop_stoppedAtZero m 0 h).2 ramp
  · exact (Stop_stoppedAtZero m tStop h).1
  · exact Go_stoppedAtZero m g dir speed tStop ss tGo hl h hgo

/-- A call that involves no emergency stop keeps `StoppedAtZero`. -/
theorem perform_stoppedAtZero (m g : Motor) (c : Call) (hc : Gentle m c)
    (h : StoppedAtZero m) (hg : perform m c = some g) : StoppedAtZero g := by
  cases c with
  | go dir speed tStop ss tGo => exact Go_stoppedAtZero m g dir speed tStop ss tGo hc h hg
  | stop t =>
    rw [← Option.some.inj hg]; exact (Stop_stoppedAtZero m t h).1
  | estop => exact absurd hc (by simp [Gentle])
  | setRamp ramp =>
    rw [← Option.some.inj hg]; exact (Stop_stoppedAtZero m 0 h).2 ramp
  | exec packet tStop ss tGo =>
    simp only [perform] at hg
    cases he : ExecuteCommand m packet tStop ss tGo with
    | none => simp [he] at hg
    | some r =>
      obtain ⟨reply, g1⟩ := r
      simp only [he, Option.map_some'] at hg
      rw [← Option.some.inj hg]
      exact ExecuteCommand_stoppedAtZero m g1 packet reply tStop ss tGo hc.1 hc.2 h he
  | run s =>
    rw [← Option.some.inj hg]; exact Run_stoppedAtZero m s hc h

/-- Calls that involve no emergency stop keep `StoppedAtZero`. -/
theorem performAll_stoppedAtZero (cs : List Call) : ∀ (m g : Motor),
    AllGentle m cs → StoppedAtZero m → performAll m cs = some g → StoppedAtZero g := by
  induction cs with
  | nil =>
    intro m g _ h hg
    rw [← Option.some.inj hg]; exact h
  | cons c cs ih =>
    intro m g hgentle h hg
    obtain ⟨hc, hrest⟩ := hgentle
    simp only [performAll] at hg
    cases hp : perform m c with
    | none => simp [hp] at hg
    | some m1 =>
      simp only [hp] at hg hrest
      exact ih m1 g hrest (perform_stoppedAtZero m m1 c hc h hp) hg

/-- C10, as stated, fails: after `Go (CW, 50)`, one call of `Run` and
`EStop ()` the controller is `STOPPED` with `currentPWM = 1`. -/
theorem stopped_with_level_kept :
    performAll fresh haltCalls = some halted ∧ Reachable halted ∧
    halted.state = STOPPED ∧ halted.currentPWM = 1 ∧
    ¬ (∀ m, Reachable m → m.state = STOPPED → m.currentPWM = 0) := by
  have hh : performAll fresh haltCalls = some halted := by decide
  have hr : Reachable halted := Reachable_of_fresh haltCalls _ hh
  refine ⟨hh, hr, by decide, by decide, fun hall => ?_⟩
  have := hall halted hr (by decide)
  revert this
  decide

/-- Calls made on a reachable state lead to a reachable state. -/
theorem Reachable_performAll (m0 m : Motor) (cs : List Call)
    (h0 : Reachable m0) (hp : performAll m0 cs = some m) : Reachable m := by
  obtain ⟨p1, p2, ll, ul, n0, now0, cs0, hrun⟩ := h0
  exact ⟨p1, p2, ll, ul, n0, now0, cs0 ++ cs, by
    rw [performAll_append cs0 cs _ m0 hrun]; exact hp⟩

/-- C10 (amended). From any reachable state that is running, or `STOPPED` at
level 0 (a freshly constructed controller is), every finite sequence of `Go`,
`Stop`, `SetRamp`, `ExecuteCommand` and `Run` calls that involves no emergency
stop (no `EStop ()`, no `ES` command, no limit switch triggered in any call of
`Run`) leads to a reachable state in which `state = STOPPED` implies
`currentPWM = 0`, whatever emergency stops came before. An emergency stop
itself sets the state to `STOPPED` and leaves `currentPWM` as it was. -/
theorem stopped_means_level_zero (m0 m : Motor) (cs : List Call)
    (h0 : Reachable m0) (hbase : m0.state ≠ STOPPED ∨ m0.currentPWM = 0)
    (hgentle : AllGentle m0 cs) (hp : performAll m0 cs = some m) :
    Reachable m ∧ (m.state = STOPPED → m.currentPWM = 0) ∧
    (EStop m).state = STOPPED ∧ (EStop m).currentPWM = m.currentPWM := by
  have hb : StoppedAtZero m0 := by
    intro hs
    rcases hbase with h | h
    · exact absurd hs h
    · exact h
  refine ⟨Reachable_performAll m0 m cs h0 hp,
    performAll_stoppedAtZero cs m0 m hgentle hb hp, ?_, ?_⟩
  · simp [EStop, analogWrite]
  · simp [EStop, analogWrite]

/-- C10 (amended) on a history with an emergency stop: after `Go (CW, 50)`,
one call of `Run`, `EStop ()` at level 1 and a restart by `Go (CW, 1)` the
controller is running; two calls of `Run`, the `ST` command and two more calls
of `Run` then end `STOPPED` at level 0. A fresh controller, `STOPPED` at
level 0, is a starting state too. -/
theorem stopped_means_level_zero_witness :
    performAll fresh restartCalls = some restarted ∧ Reachable restarted ∧
    (restarted.state ≠ STOPPED ∨ restarted.currentPWM = 0) ∧
    AllGentle restarted upDownCalls ∧
    performAll restarted upDownCalls = some settled ∧
    Reachable settled ∧ settled.state = STOPPED ∧ settled.currentPWM = 0 ∧
    Reachable fresh ∧ (fresh.state ≠ STOPPED ∨ fresh.currentPWM = 0) := by
  have hr0 : performAll fresh restartCalls = some restarted := by decide
  have hr : Reachable restarted := Reachable_of_fresh restartCalls _ hr0
  have hb : restarted.state ≠ STOPPED ∨ restarted.currentPWM = 0 := Or.inl (by decide)
  have hg : AllGentle restarted upDownCalls := by decide
  have hp : performAll restarted upDownCalls = some settled := by decide
  have h := stopped_means_level_zero restarted settled upDownCalls hr hb hg hp
  exact ⟨hr0, hr, hb, hg, hp, h.1, by decide, h.2.1 (by decide),
    Reachable_of_fresh [] _ rfl, Or.inr (by decide)⟩

/-! ## Induction over the reachable states -/

/-- A property kept by `Stop` and by every call of `Run` holds all along the
reversal loop. -/
theorem drain_induct (P : Motor → Prop) (hRun : ∀ m s, P m → P (Run m s).2)
    (ss : List Sample) : ∀ (m : Motor), P m → P (drain m ss) := by
  induction ss with
  | nil => intro m h; exact h
  | cons s ss ih =>
    intro m h
    unfold drain
    split_ifs
    · exact ih _ (hRun m s h)
    · exact h

/-- The reversal loop hands over a `STOPPED` controller. -/
theorem waitStopped_some (m g : Motor) (ss : List Sample)
    (h : waitStopped m ss = some g) : g = drain m ss ∧ g.state = STOPPED := by
  unfold waitStopped at h
  dsimp only at h
  split_ifs at h with hs
  have hg := Option.some.inj h
  subst hg
  exact ⟨rfl, not_not.mp hs⟩

/-- The three ways of `Go`: a start from `STOPPED`, a new target in the same
direction, or a reversal through the loop. -/
theorem Go_cases (m g : Motor) (dir : Direction) (speed : Int)
    (tStop : Nat) (ss : List Sample) (tGo : Nat)
    (hg : Go m dir speed tStop ss tGo = some g) :
    (m.state = STOPPED ∧ g = beginMotion m dir (clampSpeed speed) tGo) ∨
    (m.state ≠ STOPPED ∧ dir = m.currentDirection) ∨
    (m.state ≠ STOPPED ∧ dir ≠ m.currentDirection ∧
      (drain (Stop m tStop) ss).state = STOPPED ∧
      g = beginMotion (drain (Stop m tStop) ss) dir (clampSpeed speed) tGo) := by
  by_cases h1 : m.state = STOPPED
  · left
    unfold Go at hg
    simp only [h1, ne_eq, not_true_eq_false, if_false] at hg
    exact ⟨h1, (Option.some.inj hg).symm⟩
  · right
    by_cases hd : dir = m.currentDirection
    · exact Or.inl ⟨h1, hd⟩
    · right
      unfold Go at hg
      simp only [h1, ne_eq, not_false_eq_true, if_true, hd, if_false] at hg
      cases hw : waitStopped (Stop m tStop) ss with
      | none => simp [hw] at hg
      | some m2 =>
        simp only [hw] at hg
        obtain ⟨e1, e2⟩ := waitStopped_some _ _ _ hw
        rw [e1] at e2 hg
        exact ⟨h1, hd, e2, (Option.some.inj hg).symm⟩

/-- A property of a fresh controller that every method keeps holds in every
reachable state. -/
theorem Reachable_induct (P : Motor → Prop)
    (hnew : ∀ p1 p2 ll ul n0 now0, P (new p1 p2 ll ul n0 now0))
    (hRun : ∀ m s, P m → P (Run m s).2)
    (hStop : ∀ m t, P m → P (Stop m t))
    (hEStop : ∀ m, P m → P (EStop m))
    (hSetRamp : ∀ m r, P m → P (SetRamp m r))
    (hBegin : ∀ m dir speed t, m.state = STOPPED → P m → P (beginMotion m dir speed t))
    (hSame : ∀ m g speed a b c, m.state ≠ STOPPED → P m →
      Go m m.currentDirection speed a b c = some g → P g) :
    ∀ m, Reachable m → P m := by
  have hGo : ∀ m g dir speed a b c, P m → Go m dir speed a b c = some g → P g := by
    intro m g dir speed a b c hm hg
    rcases Go_cases m g dir speed a b c hg with ⟨h1, rfl⟩ | ⟨h1, rfl⟩ | ⟨-, -, h3, rfl⟩
    · exact hBegin _ _ _ _ h1 hm
    · exact hSame m g speed a b c h1 hm hg
    · exact hBegin _ _ _ _ h3 (drain_induct P hRun b _ (hStop m a hm))
  have hExec : ∀ m g packet reply a b c, P m →
      ExecuteCommand m packet a b c = some (reply, g) → P g := by
    intro m g packet reply a b c hm hg
    rcases ExecuteCommand_cases m g packet reply a b c hg with
      rfl | ⟨-, rfl⟩ | ⟨ramp, rfl⟩ | rfl | ⟨dir, speed, hgo⟩
    · exact hm
    · exact hEStop _ hm
    · exact hSetRamp _ _ hm
    · exact hStop _ _ hm
    · exact hGo _ _ _ _ _ _ _ hm hgo
  have hperform : ∀ m g c, P m → perform m c = some g → P g := by
    intro m g c hm hg
    cases c with
    | go dir speed tStop ss tGo => exact hGo _ _ _ _ _ _ _ hm hg
    | stop t => rw [← Option.some.inj hg]; exact hStop _ _ hm
    | estop => rw [← Option.some.inj hg]; exact hEStop _ hm
    | setRamp ramp => rw [← Option.some.inj hg]; exact hSetRamp _ _ hm
    | exec packet tStop ss tGo =>
      simp only [perform] at hg
      cases he : ExecuteCommand m packet tStop ss tGo with
      | none => simp [he] at hg
      | some r =>
        obtain ⟨reply, g1⟩ := r
        simp only [he, Option.map_some'] at hg
        rw [← Option.some.inj hg]
        exact hExec _ _ _ _ _ _ _ hm he
    | run s => rw [← Option.some.inj hg]; exact hRun _ _ hm
  have hall : ∀ (cs : List Call) (m g : Motor), P m → performAll m cs = some g → P g := by
    intro cs
    induction cs with
    | nil => intro m g hm hg; rw [← Option.some.inj hg]; exact hm
    | cons c cs ih =>
      intro m g hm hg
      simp only [performAll] at hg
      cases hp : perform m c with
      | none => simp [hp] at hg
      | some m1 =>
        simp only [hp] at hg
        exact ih m1 g (hperform m m1 c hm hp) hg
  intro m hm
  obtain ⟨p1, p2, ll, ul, n0, now0, cs, hrun⟩ := hm
  exact hall cs _ m (hnew p1 p2 ll ul n0 now0) hrun

/-! ## AtSpeed means on target (C11) -/

/-- Every call of `Run` keeps `AtSpeedOnTarget`. -/
theorem Run_atSpeedOnTarget (m : Motor) (s : Sample) (h : AtSpeedOnTarget m) :
    AtSpeedOnTarget (Run m s).2 := by
  unfold AtSpeedOnTarget at h ⊢
  unfold Run
  dsimp only
  split_ifs <;>
    cases hdir : m.currentDirection <;>
    simp [EStop, analogWrite, activeLine, hdir] at * <;>
    first
      | omega
      | simp_all

/-- A new target in the same direction keeps `AtSpeedOnTarget`. -/
theorem Go_same_atSpeedOnTarget (m g : Motor) (speed : Int)
    (tStop : Nat) (ss : List Sample) (tGo : Nat)
    (h1 : m.state ≠ STOPPED) (h : AtSpeedOnTarget m)
    (hg : Go m m.currentDirection speed tStop ss tGo = some g) : AtSpeedOnTarget g := by
  unfold Go at hg
  simp only [h1, ne_eq, not_false_eq_true, if_true] at hg
  split_ifs at hg with ha hb
  · rw [← Option.some.inj hg]; intro hs; simp at hs
  · rw [← Option.some.inj hg]; intro hs; simp at hs
  · rw [← Option.some.inj hg]
    intro hs
    have hs2 : m.state = AT_SPEED := hs
    obtain ⟨k1, k2⟩ := h hs2
    simp only at ha hb ⊢
    constructor
    · omega
    · omega

/-- C11. In every state reachable from a freshly constructed controller by any
finite sequence of `Go`, `Stop`, `EStop`, `SetRamp`, `ExecuteCommand` and `Run`
calls, `state = AT_SPEED` implies `currentPWM = targetPWM` and
`targetPWM ≠ 0`. -/
theorem at_speed_means_on_target (m : Motor) (hm : Reachable m)
    (hs : m.state = AT_SPEED) : m.currentPWM = m.targetPWM ∧ m.targetPWM ≠ 0 := by
  refine Reachable_induct AtSpeedOnTarget ?_ Run_atSpeedOnTarget ?_ ?_ ?_ ?_ ?_ m hm hs
  · intro p1 p2 ll ul n0 now0 h
    simp [new, SetRamp, analogWrite] at h
  · intro m t h
    unfold Stop
    split_ifs
    · intro hs; simp at hs
    · exact h
  · intro m _ hs
    simp [EStop, analogWrite] at hs
  · intro m r h
    unfold SetRamp
    split_ifs
    · exact h
    · exact h
  · intro m dir speed t hst h
    unfold beginMotion
    split_ifs
    · intro hs; simp at hs
    · exact h
  · intro m g speed a b c h1 h hg
    exact Go_same_atSpeedOnTarget m g speed a b c h1 h hg

/-- C11 on a ramp up to level 2: the controller is `AT_SPEED`, on its target
2. -/
theorem at_speed_means_on_target_witness :
    Reachable cruising ∧ cruising.state = AT_SPEED ∧
    cruising.currentPWM = cruising.targetPWM ∧ cruising.targetPWM ≠ 0 ∧
    cruising.targetPWM = 2 := by
  have hr : Reachable cruising := Reachable_of_fresh upCalls _ (by decide)
  have h := at_speed_means_on_target cruising hr (by decide)
  exact ⟨hr, by decide, h.1, h.2, by decide⟩

/-! ## Output lines never overlap (C12) -/

/-- Every call of `Run` keeps `LinesOk`. -/
theorem Run_linesOk (m : Motor) (s : Sample) (h : LinesOk m) : LinesOk (Run m s).2 := by
  by_cases h1 : m.state = STOPPED
  · have hR : Run m s = (OKAY, m) := by simp [Run, h1]
    rw [hR]; exact h
  · obtain ⟨r1, -, r4, r5⟩ := Run_frame m s
    have hin := r4 (h.1 h1)
    constructor
    · intro _
      rw [r1]; exact hin
    · intro hs
      have hact := r5 h1 hs
      refine both_zero _ (activeLine m.currentDirection) (inactiveLine m.currentDirection)
        ?_ hact hin
      cases m.currentDirection <;> simp [activeLine, inactiveLine]

/-- A new target in the same direction keeps `LinesOk`. -/
theorem Go_same_linesOk (m g : Motor) (speed : Int)
    (tStop : Nat) (ss : List Sample) (tGo : Nat)
    (h1 : m.state ≠ STOPPED) (h : LinesOk m)
    (hg : Go m m.currentDirection speed tStop ss tGo = some g) : LinesOk g := by
  have hin := h.1 h1
  unfold Go at hg
  simp only [h1, ne_eq, not_false_eq_true, if_true] at hg
  split_ifs at hg <;> rw [← Option.some.inj hg] <;> constructor
  · intro _; exact hin
  · intro hs; simp at hs
  · intro _; exact hin
  · intro hs; simp at hs
  · intro _; exact hin
  · intro hs; exact absurd hs h1

/-- The tail of `Go` on a `STOPPED` controller keeps `LinesOk`. -/
theorem beginMotion_linesOk (m : Motor) (dir : Direction) (speed : Int) (t : Nat)
    (hst : m.state = STOPPED) (h : LinesOk m) : LinesOk (beginMotion m dir speed t) := by
  obtain ⟨z1, z2⟩ := h.2 hst
  unfold beginMotion
  split_ifs
  · constructor
    · intro _
      cases dir <;> simp [digitalWriteLow, analogWrite, inactiveLine, duty]
    · intro hs; simp at hs
  · exact h

/-- Every method keeps `LinesOk`: it holds in every reachable state. -/
theorem Reachable_linesOk (m : Motor) (hm : Reachable m) : LinesOk m := by
  refine Reachable_induct LinesOk ?_ Run_linesOk ?_ ?_ ?_ beginMotion_linesOk
    Go_same_linesOk m hm
  · intro p1 p2 ll ul n0 now0
    simp [LinesOk, new, SetRamp, analogWrite]
  · intro m t h
    unfold Stop
    split_ifs with hc
    · exact ⟨fun _ => h.1 hc.1, fun hs => by simp at hs⟩
    · exact h
  · intro m _
    simp [LinesOk, EStop, analogWrite]
  · intro m r h
    unfold SetRamp
    split_ifs
    · exact h
    · exact h

/-- Lines that do not overlap are never both non-zero, and the line at 0 is
`pwmPin1` for `CW` and `pwmPin2` for `CCW`. -/
theorem LinesOk_spelled (m : Motor) (h : LinesOk m) :
    ¬ (m.out1 ≠ 0 ∧ m.out2 ≠ 0) ∧
    (m.state ≠ STOPPED → m.currentDirection = CW → m.out1 = 0) ∧
    (m.state ≠ STOPPED → m.currentDirection = CCW → m.out2 = 0) := by
  obtain ⟨a, b⟩ := h
  by_cases hs : m.state = STOPPED
  · obtain ⟨z1, z2⟩ := b hs
    exact ⟨fun hh => hh.1 z1, fun h1 => absurd hs h1, fun h1 => absurd hs h1⟩
  · have hin := a hs
    cases hd : m.currentDirection <;> simp [hd, inactiveLine, duty] at hin <;>
      simp [hin, hs]

/-- C12. With the last value written to each output line as part of the
state: in every state reachable from a freshly constructed controller by any
finite sequence of `Go`, `Stop`, `EStop`, `SetRamp`, `ExecuteCommand` and `Run`
calls, and in every state that a reversal started there passes through (after
`Stop ()` and any number of iterations of its loop), the two lines are never
both non-zero: while the state is not `STOPPED` the line not selected by
`currentDirection` (`pwmPin1` for `CW`, `pwmPin2` for `CCW`) is at 0, and when
the state is `STOPPED` both lines are at 0. -/
theorem lines_never_overlap (m : Motor) (hm : Reachable m) :
    (LinesOk m ∧ ¬ (m.out1 ≠ 0 ∧ m.out2 ≠ 0) ∧
      (m.state ≠ STOPPED → m.currentDirection = CW → m.out1 = 0) ∧
      (m.state ≠ STOPPED → m.currentDirection = CCW → m.out2 = 0)) ∧
    ∀ (t : Nat) (ss : List Sample),
      LinesOk (drain (Stop m t) ss) ∧
      ¬ ((drain (Stop m t) ss).out1 ≠ 0 ∧ (drain (Stop m t) ss).out2 ≠ 0) := by
  have h := Reachable_linesOk m hm
  refine ⟨⟨h, LinesOk_spelled m h⟩, fun t ss => ?_⟩
  have hS : LinesOk (Stop m t) := by
    unfold Stop
    split_ifs with hc
    · exact ⟨fun _ => h.1 hc.1, fun hs => by simp at hs⟩
    · exact h
  have hD := drain_induct LinesOk Run_linesOk ss _ hS
  exact ⟨hD, (LinesOk_spelled _ hD).1⟩

/-- C12 on a ramp up to level 2 in direction `CW`: `pwmPin1` is at 0 while
`pwmPin2` carries the level 2. -/
theorem lines_never_overlap_witness :
    Reachable cruising ∧ cruising.state ≠ STOPPED ∧ cruising.currentDirection = CW ∧
    cruising.out1 = 0 ∧ cruising.out2 = 2 ∧
    ¬ (cruising.out1 ≠ 0 ∧ cruising.out2 ≠ 0) := by
  have hr : Reachable cruising := Reachable_of_fresh upCalls _ (by decide)
  have h := (lines_never_overlap cruising hr).1
  exact ⟨hr, by decide, by decide, h.2.2.1 (by decide) (by decide), by decide, h.2.1⟩

/-! ## Go from Stopped (C13) -/

/-- C13. On a `STOPPED` controller, with `c = min (100, max (0, s))`: if
`c = 0`, which is the case of every `s ≤ 0`, `Go (d, s)` changes nothing; if
`c ≥ 1`, `Go (d, s)` sets `currentDirection = d`, writes `LOW` to the line not
used by `d` (its only write), sets `currentPWM = 0`,
`targetPWM = c * 250 / 100` (250 for every `s ≥ 100`), `pwmIncrement = 1`,
`nextPWMMicros` to the clock reading and the state to `RAMPING_UP`, and leaves
the other line, `rampPeriod` and the pins as they were. -/
theorem go_from_stopped (m : Motor) (d : Direction) (s : Int)
    (tStop : Nat) (ss : List Sample) (tGo : Nat) (hst : m.state = STOPPED) :
    (min 100 (max 0 s) = 0 → Go m d s tStop ss tGo = some m) ∧
    (s ≤ 0 → Go m d s tStop ss tGo = some m) ∧
    (1 ≤ min 100 (max 0 s) →
      ∃ g, Go m d s tStop ss tGo = some g ∧
        g.currentDirection = d ∧
        duty g (inactiveLine d) = 0 ∧ g.log = m.log ++ [(inactiveLine d, 0)] ∧
        duty g (activeLine d) = duty m (activeLine d) ∧
        g.currentPWM = 0 ∧ g.targetPWM = min 100 (max 0 s) * 250 / 100 ∧
        (100 ≤ s → g.targetPWM = 250) ∧
        g.pwmIncrement = 1 ∧ g.nextPWMMicros = micros tGo ∧ g.state = RAMPING_UP ∧
        g.rampPeriod = m.rampPeriod ∧ g.llSwitchPin = m.llSwitchPin ∧
        g.ulSwitchPin = m.ulSwitchPin ∧ g.pwmPin1 = m.pwmPin1 ∧ g.pwmPin2 = m.pwmPin2) := by
  have hc := clampSpeed_eq s
  have hgo : Go m d s tStop ss tGo = some (beginMotion m d (clampSpeed s) tGo) := by
    simp [Go, hst]
  refine ⟨fun h0 => ?_, fun h0 => ?_, fun h1 => ?_⟩
  · rw [hgo, hc, h0]; simp [beginMotion]
  · have : min 100 (max 0 s) = 0 := by omega
    rw [hgo, hc, this]; simp [beginMotion]
  · have hne : clampSpeed s ≠ 0 := by omega
    refine ⟨_, hgo, ?_⟩
    rw [← hc]
    cases d <;>
      simp [beginMotion, hne, digitalWriteLow, analogWrite, inactiveLine, activeLine, duty] <;>
      intro h100 <;>
      (have : clampSpeed s = 100 := by omega) <;>
      rw [this] <;> rfl

/-- C13 on a fresh controller: `Go (CCW, 250)` is clamped to 100 and gives
`RAMPING_UP` in direction `CCW` toward level 250, from level 0. -/
theorem go_from_stopped_witness :
    fresh.state = STOPPED ∧ (1 : Int) ≤ min 100 (max 0 250) ∧
    ∃ g, Go fresh CCW 250 0 [] 7 = some g ∧ g.currentDirection = CCW ∧
      g.currentPWM = 0 ∧ g.targetPWM = 250 ∧ g.pwmIncrement = 1 ∧
      g.nextPWMMicros = 7 ∧ g.state = RAMPING_UP ∧ g.out2 = 0 := by
  obtain ⟨g, h1, h2, h3, -, -, h6, -, h8, h9, h10, h11, -⟩ :=
    (go_from_stopped fresh CCW 250 0 [] 7 (by decide)).2.2 (by decide)
  exact ⟨by decide, by decide, g, h1, h2, h6, h8 (by decide), h9,
    by rw [h10]; decide, h11, h3⟩

/-! ## A new target while running (C14) -/

/-- C14. On a controller that is not `STOPPED`, with `0 ≤ currentPWM ≤ 250`,
let the level `T = min (100, max (0, s)) * 250 / 100` of the request differ
from `currentPWM`. Then `Go (currentDirection, s)` sets `targetPWM = T` and
`(pwmIncrement, state)` to `(+1, RAMPING_UP)` if `T > currentPWM` and to
`(-1, RAMPING_DOWN)` if `T < currentPWM`, writes nothing and leaves
`currentDirection`, `currentPWM` and both outputs as they were. Along any
following calls of `Run` in which no limit switch is triggered, with `n` the
number of due calls: `n` never exceeds `|T - currentPWM|`, the level has moved
`n` units toward `T`, the state is unchanged while `n < |T - currentPWM|`, and
once `n = |T - currentPWM|` the level is `T` and the state is `AT_SPEED` when
`T ≠ 0` and `STOPPED` when `T = 0`. -/
theorem retarget_converges (m : Motor) (s : Int)
    (tStop : Nat) (rs : List Sample) (tGo : Nat)
    (hst : m.state ≠ STOPPED) (_h0 : 0 ≤ m.currentPWM) (_h250 : m.currentPWM ≤ 250)
    (hT : min 100 (max 0 s) * 250 / 100 ≠ m.currentPWM) :
    ∃ g, Go m m.currentDirection s tStop rs tGo = some g ∧
      g.targetPWM = min 100 (max 0 s) * 250 / 100 ∧
      (m.currentPWM < g.targetPWM → g.pwmIncrement = 1 ∧ g.state = RAMPING_UP) ∧
      (g.targetPWM < m.currentPWM → g.pwmIncrement = -1 ∧ g.state = RAMPING_DOWN) ∧
      g.currentDirection = m.currentDirection ∧ g.currentPWM = m.currentPWM ∧
      g.out1 = m.out1 ∧ g.out2 = m.out2 ∧ g.log = m.log ∧
      ∀ ss : List Sample, (∀ x ∈ ss, NoLimit g x) →
        (dueRuns g ss : Int) ≤ |g.targetPWM - m.currentPWM| ∧
        (m.currentPWM < g.targetPWM →
          (runs g ss).currentPWM = m.currentPWM + dueRuns g ss) ∧
        (g.targetPWM < m.currentPWM →
          (runs g ss).currentPWM = m.currentPWM - dueRuns g ss) ∧
        ((dueRuns g ss : Int) < |g.targetPWM - m.currentPWM| →
          (runs g ss).state = g.state) ∧
        ((dueRuns g ss : Int) = |g.targetPWM - m.currentPWM| →
          (runs g ss).currentPWM = g.targetPWM ∧
          (runs g ss).state = (if g.targetPWM = 0 then STOPPED else AT_SPEED)) := by
  have hc := clampSpeed_eq s
  rw [← hc] at hT ⊢
  -- the two outcomes of the comparison in `Go`
  have hgo : ∃ g, Go m m.currentDirection s tStop rs tGo = some g ∧
      g.targetPWM = clampSpeed s * 250 / 100 ∧
      ((m.currentPWM < g.targetPWM ∧ g.pwmIncrement = 1 ∧ g.state = RAMPING_UP) ∨
        (g.targetPWM < m.currentPWM ∧ g.pwmIncrement = -1 ∧ g.state = RAMPING_DOWN)) ∧
      g.currentDirection = m.currentDirection ∧ g.currentPWM = m.currentPWM ∧
      g.out1 = m.out1 ∧ g.out2 = m.out2 ∧ g.log = m.log := by
    unfold Go
    simp only [hst, ne_eq, not_false_eq_true, if_true]
    by_cases hup : clampSpeed s * 250 / 100 > m.currentPWM
    · exact ⟨{ m with targetPWM := clampSpeed s * 250 / 100, pwmIncrement := 1,
                      state := RAMPING_UP },
        by simp only [hup, if_true], rfl, Or.inl ⟨hup, rfl, rfl⟩, rfl, rfl, rfl, rfl, rfl⟩
    · have hdown : clampSpeed s * 250 / 100 < m.currentPWM := by omega
      exact ⟨{ m with targetPWM := clampSpeed s * 250 / 100, pwmIncrement := -1,
                      state := RAMPING_DOWN },
        by simp only [hup, if_false, hdown, if_true], rfl, Or.inr ⟨hdown, rfl, rfl⟩,
        rfl, rfl, rfl, rfl, rfl⟩
  obtain ⟨g, hg, g1, g2, g3, g4, g5, g6, g7⟩ := hgo
  refine ⟨g, hg, g1, fun h => ?_, fun h => ?_, g3, g4, g5, g6, g7, ?_⟩
  · rcases g2 with ⟨-, a, b⟩ | ⟨c, -, -⟩
    · exact ⟨a, b⟩
    · omega
  · rcases g2 with ⟨c, -, -⟩ | ⟨-, a, b⟩
    · omega
    · exact ⟨a, b⟩
  · intro ss hquiet
    have hramp : g.state ≠ STOPPED ∧ g.state ≠ AT_SPEED := by
      rcases g2 with ⟨-, -, b⟩ | ⟨-, -, b⟩ <;> rw [b] <;> exact ⟨by decide, by decide⟩
    have hinc : g.pwmIncrement = 1 ∨ g.pwmIncrement = -1 := by
      rcases g2 with ⟨-, a, -⟩ | ⟨-, a, -⟩
      · exact Or.inl a
      · exact Or.inr a
    have hpos : 0 < (g.targetPWM - g.currentPWM) * g.pwmIncrement := by
      rw [g4]
      rcases g2 with ⟨c, a, -⟩ | ⟨c, a, -⟩ <;> rw [a] <;> omega
    obtain ⟨jn, jc, -, -, -, jst, -, -, -⟩ :=
      runs_ramp ss g hramp.1 hramp.2 hinc hpos hquiet
    rw [g4] at jn jc
    rcases g2 with ⟨c, a, b⟩ | ⟨c, a, b⟩
    · rw [a] at jn jc
      have habs : |g.targetPWM - m.currentPWM| = g.targetPWM - m.currentPWM :=
        abs_of_pos (by omega)
      rw [habs]
      have jc2 : (runs g ss).currentPWM = m.currentPWM + dueRuns g ss := by rw [jc]; ring
      refine ⟨by omega, fun _ => jc2, fun h => by omega, fun h => ?_, fun h => ?_⟩
      · rw [jst, if_neg (by omega)]
      · have e : (runs g ss).currentPWM = g.targetPWM := by omega
        exact ⟨e, by rw [jst, if_pos e]⟩
    · rw [a] at jn jc
      have habs : |g.targetPWM - m.currentPWM| = m.currentPWM - g.targetPWM := by
        rw [abs_of_neg (by omega)]; ring
      rw [habs]
      have jc2 : (runs g ss).currentPWM = m.currentPWM - dueRuns g ss := by rw [jc]; ring
      refine ⟨by omega, fun h => by omega, fun _ => jc2, fun h => ?_, fun h => ?_⟩
      · rw [jst, if_neg (by omega)]
      · have e : (runs g ss).currentPWM = g.targetPWM := by omega
        exact ⟨e, by rw [jst, if_pos e]⟩

set_option maxRecDepth 100000 in
/-- C14 on `cruising` (`AT_SPEED` at level 2): `Go (CW, 2)` asks for level 5,
gives `RAMPING_UP`; of the four calls of `spaced 10000 4` the first comes
before `nextPWMMicros` and the other three are due, and they end in
`AT_SPEED` at level 5. -/
theorem retarget_converges_witness :
    cruising.state ≠ STOPPED ∧ 0 ≤ cruising.currentPWM ∧ cruising.currentPWM ≤ 250 ∧
    min 100 (max 0 (2 : Int)) * 250 / 100 ≠ cruising.currentPWM ∧
    ∃ g, Go cruising CW 2 0 [] 0 = some g ∧ g.targetPWM = 5 ∧ g.state = RAMPING_UP ∧
      dueRuns g (spaced 10000 4) = 3 ∧
      (runs g (spaced 10000 4)).currentPWM = 5 ∧
      (runs g (spaced 10000 4)).state = AT_SPEED := by
  obtain ⟨g, hg, g1, g2, -, -, g4, -, -, -, hruns⟩ :=
    retarget_converges cruising 2 0 [] 0 (by decide) (by decide) (by decide) (by decide)
  have hg' : Go cruising CW 2 0 [] 0 = some g := hg
  have hT : g.targetPWM = 5 := by rw [g1]; decide
  have hcur : cruising.currentPWM = 2 := by decide
  have hup := g2 (by rw [hT, hcur]; decide)
  have hq : ∀ x ∈ spaced 10000 4, NoLimit g x := by
    intro x hx
    simp only [spaced, List.mem_map] at hx
    obtain ⟨i, -, rfl⟩ := hx
    simp [NoLimit]
  have hgeq : g = (Go cruising CW 2 0 [] 0).getD fresh := by rw [hg']; rfl
  have hn : dueRuns g (spaced 10000 4) = 3 := by rw [hgeq]; decide
  obtain ⟨-, -, -, -, k5⟩ := hruns (spaced 10000 4) hq
  rw [hn, hT, hcur] at k5
  obtain ⟨e1, e2⟩ := k5 (by decide)
  exact ⟨by decide, by decide, by decide, by decide, g, hg', hT, hup.2, hn, e1,
    by rw [e2]; decide⟩

/-! ## Characters and lengths of a packet -/

/-- A decimal digit, as `isdigit`, `isspace` and `atoi` see it. -/
theorem digitChar_facts (k : Nat) (hk : k < 10) :
    (digitChar k).isDigit = true ∧ ((digitChar k).toNat : Int) - 48 = k ∧
    digitChar k ≠ Char.ofNat 0 ∧ isspace (digitChar k) = false ∧
    digitChar k ≠ '-' ∧ digitChar k ≠ '+' := by
  interval_cases k <;> decide

/-- The length of a C string that starts with a character other than NUL. -/
theorem strlen_cons (c : Char) (p : List Char) (h : c ≠ Char.ofNat 0) :
    strlen (c :: p) = strlen p + 1 := by
  simp [strlen, List.takeWhile, h]

/-- The empty C string. -/
theorem strlen_nil : strlen [] = 0 := rfl

/-- The function `atoi` on one, two and three digits. -/
theorem atoi_digits (a b d : Nat) (ha : a < 10) (hb : b < 10) (hd : d < 10) :
    atoi [digitChar a] = a ∧
    atoi [digitChar a, digitChar b] = 10 * a + b ∧
    atoi [digitChar a, digitChar b, digitChar d] = 100 * a + 10 * b + d := by
  obtain ⟨a1, a2, -, a4, a5, a6⟩ := digitChar_facts a ha
  obtain ⟨b1, b2, -, -, -, -⟩ := digitChar_facts b hb
  obtain ⟨d1, d2, -, -, -, -⟩ := digitChar_facts d hd
  refine ⟨?_, ?_, ?_⟩
  · simp only [atoi, List.dropWhile, a4, a5, a6, if_false, digitsValue, a1, if_true]
    omega
  · simp only [atoi, List.dropWhile, a4, a5, a6, if_false, digitsValue, a1, b1, if_true]
    omega
  · simp only [atoi, List.dropWhile, a4, a5, a6, if_false, digitsValue, a1, b1, d1, if_true]
    omega

/-- C15 fails on `"SRX"`: the packet has three characters, `atoi ("X")` is 0,
and the command sets the ramp to index 0 (`rampPeriod` 2000 instead of 10000)
with the empty reply. The packets `"SR"` and `"SR12"` are rejected as the
claim says. -/
theorem set_ramp_accepts_non_digit :
    fresh.rampPeriod = 10000 ∧
    ExecuteCommand fresh "SRX" 0 [] 0 = some ("", SetRamp fresh 0) ∧
    (SetRamp fresh 0).rampPeriod = 2000 ∧
    ExecuteCommand fresh "SR" 0 [] 0 = some ("Missing ramp value 0-9", fresh) ∧
    ExecuteCommand fresh "SR12" 0 [] 0 = some ("Missing ramp value 0-9", fresh) := by
  decide

/-! ## The go command (C16) -/

/-- C17. `ExecuteCommand` replies `"Bad command"` for every packet shorter
than 2 characters and for every packet that begins with `GO` and is shorter
than 4 characters, and `"Unknown command"` for every packet of at least 2
characters whose first two are none of `ES`, `SR`, `GO`, `ST`, `GS`; in all
these cases the controller, its outputs included, is the one before. -/
theorem malformed_commands_rejected (m : Motor) (packet : String)
    (tStop : Nat) (ss : List Sample) (tGo : Nat) :
    (strlen packet.data < 2 →
      ExecuteCommand m packet tStop ss tGo = some ("Bad command", m)) ∧
    (packet.data.take 2 = ['G', 'O'] → strlen packet.data < 4 →
      ExecuteCommand m packet tStop ss tGo = some ("Bad command", m)) ∧
    (2 ≤ strlen packet.data →
      packet.data.take 2 ∉
        [['E', 'S'], ['S', 'R'], ['G', 'O'], ['S', 'T'], ['G', 'S']] →
      ExecuteCommand m packet tStop ss tGo = some ("Unknown command", m)) := by
  refine ⟨fun h => ?_, fun hgo h4 => ?_, fun h2 hnot => ?_⟩
  · simp [ExecuteCommand, h]
  · by_cases h2 : strlen packet.data < 2
    · simp [ExecuteCommand, h2]
    · simp [ExecuteCommand, h2, hgo, h4]
  · have h2' : ¬ strlen packet.data < 2 := by omega
    simp only [List.mem_cons, List.mem_singleton, List.not_mem_nil, or_false, not_or] at hnot
    obtain ⟨n1, n2, n3, n4, n5⟩ := hnot
    unfold ExecuteCommand
    simp only [h2', n1, n2, n3, n4, n5, if_false]

/-- C17 on the packets `""`, `"G"`, `"GO"`, `"GO>"` (bad commands) and `"XY"`,
`"go<50"` (unknown: matching is case-sensitive), in the state `cruising`. -/
theorem malformed_commands_rejected_witness :
    ExecuteCommand cruising "" 0 [] 0 = some ("Bad command", cruising) ∧
    ExecuteCommand cruising "G" 0 [] 0 = some ("Bad command", cruising) ∧
    ExecuteCommand cruising "GO" 0 [] 0 = some ("Bad command", cruising) ∧
    ExecuteCommand cruising "GO>" 0 [] 0 = some ("Bad command", cruising) ∧
    ExecuteCommand cruising "XY" 0 [] 0 = some ("Unknown command", cruising) ∧
    ExecuteCommand cruising "go<50" 0 [] 0 = some ("Unknown command", cruising) := by
  refine ⟨?_, ?_, ?_, ?_, ?_, ?_⟩
  · exact (malformed_commands_rejected cruising "" 0 [] 0).1 (by decide)
  · exact (malformed_commands_rejected cruising "G" 0 [] 0).1 (by decide)
  · exact (malformed_commands_rejected cruising "GO" 0 [] 0).2.1 (by decide) (by decide)
  · exact (malformed_commands_rejected cruising "GO>" 0 [] 0).2.1 (by decide) (by decide)
  · exact (malformed_commands_rejected cruising "XY" 0 [] 0).2.2 (by decide) (by decide)
  · exact (malformed_commands_rejected cruising "go<50" 0 [] 0).2.2 (by decide) (by decide)

/-! ## Ramp configuration (C18) -/

/-- C18. For `0 ≤ i ≤ 9`, `SetRamp (i)` sets `rampPeriod = 2000 * i + 2000` and
changes no other field; for every other `i` it changes nothing; a freshly
constructed controller has `rampPeriod = 10000`, the value of index 4; and for
every digit `d` the packet `SR d` returns the empty reply and has exactly the
effect of `SetRamp (d)`. -/
theorem ramp_configuration (m : Motor) (i : Int) (d : Nat)
    (tStop : Nat) (ss : List Sample) (tGo : Nat) :
    (0 ≤ i → i ≤ 9 →
      SetRamp m i = { m with rampPeriod := (2000 * i + 2000).toNat } ∧
      ((SetRamp m i).rampPeriod : Int) = 2000 * i + 2000) ∧
    (i < 0 ∨ 9 < i → SetRamp m i = m) ∧
    (∀ (p1 p2 ll ul : Int) (n0 now0 : Nat),
      (new p1 p2 ll ul n0 now0).rampPeriod = 10000 ∧
      ((new p1 p2 ll ul n0 now0).rampPeriod : Int) = 2000 * 4 + 2000) ∧
    (d < 10 →
      ExecuteCommand m (String.mk ['S', 'R', digitChar d]) tStop ss tGo =
        some ("", SetRamp m d)) := by
  refine ⟨fun h0 h9 => ?_, fun h => ?_, fun p1 p2 ll ul n0 now0 => ?_, fun hd => ?_⟩
  · have hS : SetRamp m i = { m with rampPeriod := (2000 * i + 2000).toNat } := by
      simp [SetRamp, h0, h9]
    refine ⟨hS, ?_⟩
    rw [hS]
    simp only
    omega
  · have : ¬ (i ≥ 0 ∧ i ≤ 9) := by omega
    simp [SetRamp, this]
  · simp [new, SetRamp, analogWrite]
  · obtain ⟨-, -, d3, -, -, -⟩ := digitChar_facts d hd
    have hlen : strlen ['S', 'R', digitChar d] = 3 := by
      rw [strlen_cons _ _ (by decide), strlen_cons _ _ (by decide), strlen_cons _ _ d3,
        strlen_nil]
    have hat : atoi [digitChar d] = d := (atoi_digits d 0 0 hd (by decide) (by decide)).1
    have hr : (d : Int) ≥ 0 ∧ (d : Int) ≤ 9 := by omega
    unfold ExecuteCommand
    simp only [hlen, List.take, List.drop, hat, hr]
    simp

/-- C18 on `"SR5"`: the reply is empty and `rampPeriod` becomes 12000, every
other field of the fresh controller being kept; `SetRamp (10)` changes
nothing. -/
theorem ramp_configuration_witness :
    (0 : Int) ≤ 5 ∧ (5 : Int) ≤ 9 ∧ 5 < 10 ∧ ((10 : Int) < 0 ∨ (9 : Int) < 10) ∧
    String.mk ['S', 'R', digitChar 5] = "SR5" ∧
    ExecuteCommand fresh "SR5" 0 [] 0 = some ("", { fresh with rampPeriod := 12000 }) ∧
    SetRamp fresh 10 = fresh := by
  have h := ramp_configuration fresh 5 5 0 [] 0
  have h10 := (ramp_configuration fresh 10 5 0 [] 0).2.1 (by decide)
  have hs : String.mk ['S', 'R', digitChar 5] = "SR5" := by decide
  have he := h.2.2.2 (by decide)
  rw [hs] at he
  exact ⟨by decide, by decide, by decide, by decide, hs, he.trans (by decide), h10⟩

/-! ## ES, ST and GS (C19) -/

/-- C19. Whatever characters follow the first two: a packet `ES...` returns
the empty reply and has exactly the effect of `EStop ()`; a packet `ST...`
returns the empty reply and has exactly the effect of `Stop ()`; a packet
`GS...` changes nothing and replies `ST` for `STOPPED`, `RU` for `RAMPING_UP`,
`AS` for `AT_SPEED` and `RD` for `RAMPING_DOWN`, never `??`. -/
theorem two_letter_commands (m : Motor) (rest : List Char)
    (tStop : Nat) (ss : List Sample) (tGo : Nat) :
    ExecuteCommand m (String.mk ('E' :: 'S' :: rest)) tStop ss tGo = some ("", EStop m) ∧
    ExecuteCommand m (String.mk ('S' :: 'T' :: rest)) tStop ss tGo =
      some ("", Stop m tStop) ∧
    ExecuteCommand m (String.mk ('G' :: 'S' :: rest)) tStop ss tGo =
      some (stateCode m.state, m) ∧
    stateCode STOPPED = "ST" ∧ stateCode RAMPING_UP = "RU" ∧
    stateCode AT_SPEED = "AS" ∧ stateCode RAMPING_DOWN = "RD" ∧
    ∀ st, stateCode st ≠ "??" := by
  have hlen : ∀ a b : Char, a ≠ Char.ofNat 0 → b ≠ Char.ofNat 0 →
      ¬ strlen (a :: b :: rest) < 2 := by
    intro a b ha hb
    rw [strlen_cons _ _ ha, strlen_cons _ _ hb]
    omega
  refine ⟨?_, ?_, ?_, rfl, rfl, rfl, rfl, ?_⟩
  · have h2 := hlen 'E' 'S' (by decide) (by decide)
    simp [ExecuteCommand, h2]
  · have h2 := hlen 'S' 'T' (by decide) (by decide)
    simp [ExecuteCommand, h2]
  · have h2 := hlen 'G' 'S' (by decide) (by decide)
    simp [ExecuteCommand, h2]
  · intro st
    cases st <;> decide

/-! ## Pacing of the ramp steps at the wrap of the clock (C20) -/

/-- C20 fails where the 32-bit clock wraps. (1) After a step at
`t = 2 ^ 32 - 5000` with `rampPeriod = 10000`, `nextPWMMicros` is the wrapped
sum 5000, and a call of `Run` one microsecond later, at `t + 1`, takes the
next step (level 2). (2) After a step at `t = 2 ^ 32 - 15000`,
`nextPWMMicros` is `2 ^ 32 - 5000`, and a call of `Run` 20000 microseconds
later, when the clock has wrapped to 5000, takes no step (level still 1). -/
theorem pacing_fails_at_clock_wrap :
    (ULONG = 2 ^ 32 ∧
      performAll fresh [Call.go CW 50 0 [] 4294962296, Call.run (quiet 4294962296)] =
        some steppedNearWrap ∧
      steppedNearWrap.state = RAMPING_UP ∧
      steppedNearWrap.currentPWM = 1 ∧ steppedNearWrap.targetPWM = 125 ∧
      steppedNearWrap.rampPeriod = 10000 ∧ steppedNearWrap.now = 4294962296 ∧
      steppedNearWrap.nextPWMMicros = 5000 ∧
      (micros 4294962297 + ULONG - steppedNearWrap.now) % ULONG = 1 ∧
      Run steppedNearWrap (quiet 4294962297) =
        (OKAY, (Run steppedNearWrap (quiet 4294962297)).2) ∧
      (Run steppedNearWrap (quiet 4294962297)).2.currentPWM = 2 ∧
      (Run steppedNearWrap (quiet 4294962297)).2.out2 = 2) ∧
    (performAll fresh [Call.go CW 50 0 [] 4294952296, Call.run (quiet 4294952296)] =
        some steppedBeforeWrap ∧
      steppedBeforeWrap.state = RAMPING_UP ∧ steppedBeforeWrap.currentPWM = 1 ∧
      steppedBeforeWrap.rampPeriod = 10000 ∧ steppedBeforeWrap.now = 4294952296 ∧
      steppedBeforeWrap.nextPWMMicros = 4294962296 ∧
      micros 4294972296 = 5000 ∧
      (micros 4294972296 + ULONG - steppedBeforeWrap.now) % ULONG = 20000 ∧
      (Run steppedBeforeWrap (quiet 4294972296)).2.currentPWM = 1 ∧
      (Run steppedBeforeWrap (quiet 4294972296)).2.state = RAMPING_UP) := by
  decide

end DCMotor
